import Mathlib

/-!
Verification of the deductive Sudoku solver (src/sudoku.py) against its
specification.  The Python classes `Cell` and `Sudoku` are shallowly embedded:
a grid is a function from cell indices (0..80) to cell records, and each
method becomes a pure function on grids.  Python sets become `Finset`s; the
worklist loop of `set_values` is realised with a fuel that is provably
sufficient (the fuel value never influences the result).
-/

set_option maxHeartbeats 1600000
set_option maxRecDepth 100000

namespace SudokuSpec

/-- A cell of the grid: `value` (0 = unknown), candidate `domain`, and the
`locked` finality flag, mirroring the Python class `Cell` of src/sudoku.py.
The Python field `idnum` is the cell's index in the grid; here the index is
carried externally (grids are functions from indices to cells). -/
structure Cell where
  value : Nat
  domain : Finset Nat
  locked : Bool
deriving DecidableEq

/-- A Sudoku grid owns 81 cells, indexed 0..80 in row-major order
(`Sudoku.internal_grid`). -/
def Grid : Type := Fin 81 → Cell

instance : DecidableEq Grid := by unfold Grid; infer_instance

/-- A fresh cell (`Cell.__init__`): value 0, full domain, not locked. -/
def freshCell : Cell := ⟨0, {1, 2, 3, 4, 5, 6, 7, 8, 9}, false⟩

/-- `Sudoku.reset`: 81 fresh cells. -/
def initGrid : Grid := fun _ => freshCell

/-- `Cell.line`: the row of a cell. -/
def lineOf (c : Fin 81) : Nat := c.val / 9

/-- `Cell.column`: the column of a cell. -/
def colOf (c : Fin 81) : Nat := c.val % 9

/-- `Cell.square`: the 3x3 box of a cell. -/
def squareOf (c : Fin 81) : Nat := (lineOf c / 3) * 3 + colOf c / 3

/-- `Sudoku.line i`: cells of row `i`, in grid order. -/
def lineCells (i : Nat) : List (Fin 81) :=
  (List.finRange 81).filter (fun c => decide (lineOf c = i))

/-- `Sudoku.column i`: cells of column `i`, in grid order. -/
def columnCells (i : Nat) : List (Fin 81) :=
  (List.finRange 81).filter (fun c => decide (colOf c = i))

/-- `Sudoku.square i`: cells of box `i`, in grid order. -/
def squareCells (i : Nat) : List (Fin 81) :=
  (List.finRange 81).filter (fun c => decide (squareOf c = i))

/-- The cells sharing the row, column or box of `c`, in grid order.  Faithful
to the source, this list CONTAINS `c` itself: `Sudoku.neighbors` builds
`set(line_cells + square_cells + column_cells)` and never removes `cell`,
although its docstring announces "les autres cases". -/
def neighborList (c : Fin 81) : List (Fin 81) :=
  (List.finRange 81).filter
    (fun d => decide (lineOf d = lineOf c ∨ colOf d = colOf c ∨ squareOf d = squareOf c))

/-- `Sudoku.neighbors` as a set (the Python method returns `list(set(...))`,
whose order is unspecified and never relevant). -/
def neighbors (c : Fin 81) : Finset (Fin 81) := (neighborList c).toFinset

/-- The per-neighbor step of `Sudoku.propagate` for the finalized value `v`:
an unlocked neighbor whose domain contains `v` loses it, and joins the result
set when its domain drops to exactly one candidate by this removal. -/
def pstep (v : Nat) (p : Grid × Finset (Fin 81)) (n : Fin 81) :
    Grid × Finset (Fin 81) :=
  if (p.1 n).locked = false ∧ v ∈ (p.1 n).domain then
    (Function.update p.1 n
       { (p.1 n) with domain := (p.1 n).domain.erase v },
     if ((p.1 n).domain.erase v).card = 1 then insert n p.2 else p.2)
  else p

/-- `Sudoku.propagate`: removes `(g c).value` from the domains of the unlocked
neighbors of `c`, and returns the new grid together with the set of neighbors
whose domain dropped to exactly one candidate by this removal.  Each neighbor
is handled independently, so the iteration order of the Python neighbor set is
irrelevant (the cell's own `value` is never modified by the loop). -/
def propagate (g : Grid) (c : Fin 81) : Grid × Finset (Fin 81) :=
  (neighborList c).foldl (pstep (g c).value) (g, ∅)

/-- `Cell.update_value`: if the domain has exactly one element, `value` is set
to that element, the element is POPPED from the domain (Python `set.pop`
removes it, leaving the domain empty) and the cell is locked; returns whether
this happened.  Note the Python method never tests `locked`. -/
def update_value (cell : Cell) : Cell × Bool :=
  if cell.domain.card = 1 then (⟨cell.domain.min.untop' 0, ∅, true⟩, true)
  else (cell, false)

/-- Number of unlocked cells of the grid. -/
def unlockedCount (g : Grid) : Nat :=
  ∑ c : Fin 81, if (g c).locked = false then 1 else 0

/-- Total size of all domains of the grid. -/
def totalDomain (g : Grid) : Nat := ∑ c : Fin 81, (g c).domain.card

/-- Termination measure for the worklist loop of `set_values`: it strictly
decreases at every pop, whatever cell is popped. -/
def svMeasure (g : Grid) (W : Finset (Fin 81)) : Nat :=
  unlockedCount g * 100000 + totalDomain g * 100 + W.card

/-- One pop of the worklist loop of `Sudoku.set_values`, popping `c`:
`update_value` on the popped cell and, on success, merge of `propagate`'s
result set into the worklist. -/
def svPopStep (g : Grid) (W : Finset (Fin 81)) (c : Fin 81) :
    Grid × Finset (Fin 81) :=
  if (update_value (g c)).2 then
    ((propagate (Function.update g c (update_value (g c)).1) c).1,
     (W.erase c) ∪ (propagate (Function.update g c (update_value (g c)).1) c).2)
  else (g, W.erase c)

/-- Arbitrary-order pop step of the closure worklist (the Python worklist is a
set whose pop order is unspecified). -/
def SVStep (s t : Grid × Finset (Fin 81)) : Prop :=
  ∃ c ∈ s.2, t = svPopStep s.1 s.2 c

/-- Fuelled worklist drain implementing `Sudoku.set_values`; the canonical pop
is the least index (pop order affects no claim below), and the fuel
`svMeasure g W + 1` used by `set_values` is always sufficient. -/
def svFuel : Nat → Grid → Finset (Fin 81) → Grid × Bool
  | 0, g, _ => (g, false)
  | n + 1, g, W =>
    if h : W.Nonempty then
      if (update_value (g (W.min' h))).2 then
        ((svFuel n
            (propagate (Function.update g (W.min' h) (update_value (g (W.min' h))).1) (W.min' h)).1
            ((W.erase (W.min' h)) ∪
              (propagate (Function.update g (W.min' h) (update_value (g (W.min' h))).1) (W.min' h)).2)).1,
         true)
      else svFuel n g (W.erase (W.min' h))
    else (g, false)

/-- `Sudoku.set_values`: drain the worklist, applying `update_value` to each
popped cell and merging `propagate`'s result on success; returns the final
grid and whether at least one `update_value` succeeded. -/
def set_values (g : Grid) (W : Finset (Fin 81)) : Grid × Bool :=
  svFuel (svMeasure g W + 1) g W

/-- `dico_val[k]` of `Sudoku.find_unique`: the non-locked cells of `related`
whose domain contains `k`, built from the state before any forcing. -/
def buckets (g : Grid) (related : List (Fin 81)) (k : Nat) : List (Fin 81) :=
  related.filter (fun c => decide ((g c).locked = false ∧ k ∈ (g c).domain))

/-- The per-digit step of `Sudoku.find_unique`: a digit whose bucket (built
from the pre-call state `g`) holds exactly one cell forces that cell to the
digit, propagates on the current grid, and accumulates the cell and
`propagate`'s result set into the local worklist `todo`. -/
def fuStep (g : Grid) (related : List (Fin 81))
    (st : Grid × Finset (Fin 81) × Bool) (k : Nat) :
    Grid × Finset (Fin 81) × Bool :=
  match buckets g related k with
  | [c] =>
    ((propagate (Function.update st.1 c ⟨k, {k}, true⟩) c).1,
     insert c (st.2.1 ∪ (propagate (Function.update st.1 c ⟨k, {k}, true⟩) c).2),
     true)
  | _ => st

/-- `Sudoku.find_unique` (hidden singles) on the cell list `related`: for each
digit 1..9 whose bucket is a single cell, force that cell to the digit and
propagate, accumulating a worklist `todo`; finally run `set_values` on `todo`.
Returns the new grid and `set_values(todo) or rep`. -/
def find_unique (g : Grid) (related : List (Fin 81)) : Grid × Bool :=
  let st := (List.range' 1 9).foldl (fuStep g related) (g, ∅, false)
  ((set_values st.1 st.2.1).1, (set_values st.1 st.2.1).2 || st.2.2)

/-- Keep the first occurrence of each element (Python dict keys are iterated in
insertion order). -/
def dedupFirst (l : List (Finset Nat)) : List (Finset Nat) :=
  l.foldl (fun acc k => if k ∈ acc then acc else acc ++ [k]) []

/-- The keys of `dico_paires` in `Sudoku.find_pairs`: the distinct domains of
size 2 among `related`, in first-occurrence order (the Python key
`tuple(sorted(domain))` identifies exactly the domain as a set). -/
def pairKeys (g : Grid) (related : List (Fin 81)) : List (Finset Nat) :=
  dedupFirst (((related.filter (fun c => decide ((g c).domain.card = 2))).map
    (fun c => (g c).domain)))

/-- The bucket `dico_paires[K]`: the cells of `related` with domain exactly
`K`, in list order. -/
def pairBucket (g : Grid) (related : List (Fin 81)) (K : Finset Nat) :
    List (Fin 81) :=
  related.filter (fun c => decide ((g c).domain = K))

/-- The per-cell removal step of `Sudoku.find_pairs` for the pair key `K`:
every cell outside `K`'s bucket loses the two digits of `K`
(`Cell.reduce_domain` is applied to locked cells too, and its report compares
the domain sizes before and after the removal). -/
def fpRemStep (g : Grid) (related : List (Fin 81)) (K : Finset Nat)
    (st2 : Grid × Bool) (c : Fin 81) : Grid × Bool :=
  if c ∈ pairBucket g related K then st2
  else
    (Function.update st2.1 c
       { (st2.1 c) with domain := (st2.1 c).domain \ K },
     st2.2 || decide ((st2.1 c).domain.card ≠ ((st2.1 c).domain \ K).card))

/-- The per-key step of `Sudoku.find_pairs`: a key whose bucket (built from
the pre-call state `g`) holds exactly two cells has its two digits removed
from the domain of every other cell of `related` (`Cell.reduce_domain`, whose
report compares the domain sizes before and after). -/
def fpKeyStep (g : Grid) (related : List (Fin 81)) (st : Grid × Bool)
    (K : Finset Nat) : Grid × Bool :=
  if (pairBucket g related K).length = 2 then
    related.foldl (fpRemStep g related K) st
  else st

/-- `Sudoku.find_pairs` (naked pairs) on the cell list `related`: for each key
whose bucket has exactly two cells, remove the two key digits from the domain
of every other cell of `related` (locked or not; `Cell.reduce_domain` does not
test `locked`), then run `set_values` on the whole cell set.  Key processing
order is irrelevant (removals of fixed sets commute). -/
def find_pairs (g : Grid) (related : List (Fin 81)) : Grid × Bool :=
  let red := (pairKeys g related).foldl (fpKeyStep g related) (g, false)
  ((set_values red.1 related.toFinset).1,
   (set_values red.1 related.toFinset).2 || red.2)

/-- One seeding step of `Sudoku.grid_parser` at position `p` with clue `v`: an
in-range clue on an unlocked cell whose domain still contains it is assigned
(value, singleton domain, locked) and propagated; any other clue is silently
ignored.  The worklist `todo` accumulated by the Python code is dead (never
consumed), so only the grid effect of `propagate` is kept. -/
def parseStep (g : Grid) (p : Fin 81) (v : Int) : Grid :=
  if 0 < v ∧ v ≤ 9 then
    if (g p).locked = false then
      if v.toNat ∈ (g p).domain then
        (propagate (Function.update g p ⟨v.toNat, {v.toNat}, true⟩) p).1
      else g
    else g
  else g

/-- Seeding run of `Sudoku.grid_parser` over a list of positions. -/
def parseGo (seed : Fin 81 → Int) (g : Grid) (l : List (Fin 81)) : Grid :=
  l.foldl (fun g p => parseStep g p (seed p)) g

/-- `Sudoku.grid_parser` on a flat row-major seed of 81 integers (0 = blank);
the Python method calls `self.reset()` first, so parsing starts from a fresh
grid whatever the previous state was. -/
def gridParse (seed : Fin 81 → Int) : Grid :=
  parseGo seed initGrid (List.finRange 81)

/-- The 27 technique targets of `Sudoku.solve`, in sweep order: the 9 lines,
then the 9 columns, then the 9 squares. -/
def unitsAll : List (List (Fin 81)) :=
  (List.range 9).map lineCells ++ (List.range 9).map columnCells ++
    (List.range 9).map squareCells

/-- The per-unit step of a level-1 round: `find_unique` on the unit. -/
def r1Step (st : Grid × Bool) (u : List (Fin 81)) : Grid × Bool :=
  ((find_unique st.1 u).1, st.2 || (find_unique st.1 u).2)

/-- One level-1 round of `Sudoku.solve`: `find_unique` on every unit, OR-ing
the reported results. -/
def roundLvl1 (g : Grid) : Grid × Bool := unitsAll.foldl r1Step (g, false)

/-- The per-unit step of a level-2 round: `find_unique` then `find_pairs` on
the unit. -/
def r2Step (st : Grid × Bool) (u : List (Fin 81)) : Grid × Bool :=
  ((find_pairs (find_unique st.1 u).1 u).1,
   st.2 || (find_unique st.1 u).2 || (find_pairs (find_unique st.1 u).1 u).2)

/-- One level-2 round of `Sudoku.solve`: `find_unique` then `find_pairs` on
every unit, in the same unit order. -/
def roundLvl2 (g : Grid) : Grid × Bool := unitsAll.foldl r2Step (g, false)

/-- The round loop of `Sudoku.solve`: run a round for the given level (levels
other than 1 and 2 run no technique at all), continue while the round reported
a change and the round budget is not exhausted. -/
def solveGo : Nat → Int → Grid → Grid
  | 0, _, g => g
  | n + 1, lvl, g =>
    if lvl = 1 then
      if (roundLvl1 g).2 then solveGo n lvl (roundLvl1 g).1 else (roundLvl1 g).1
    else if lvl = 2 then
      if (roundLvl2 g).2 then solveGo n lvl (roundLvl2 g).1 else (roundLvl2 g).1
    else g

/-- `Sudoku.solve`: at most 81 rounds, stopping at the first unproductive
round. -/
def solve (lvl : Int) (g : Grid) : Grid := solveGo 81 lvl g

/-- The operation alphabet of the claims: seeding, propagation, closure, the
two detectors, and the driver. -/
inductive Op where
  | parse (seed : Fin 81 → Int)
  | prop (c : Fin 81)
  | setv (W : Finset (Fin 81))
  | funiq (cells : List (Fin 81))
  | fpairs (cells : List (Fin 81))
  | slv (lvl : Int)

/-- Whether an operation is the (grid-resetting) seeding operation. -/
def Op.isParse : Op → Bool
  | Op.parse _ => true
  | _ => false

/-- Apply one operation to the grid (keeping only the grid component of the
operations that also return a report). -/
def applyOp (g : Grid) : Op → Grid
  | Op.parse seed => gridParse seed
  | Op.prop c => (propagate g c).1
  | Op.setv W => (set_values g W).1
  | Op.funiq cells => (find_unique g cells).1
  | Op.fpairs cells => (find_pairs g cells).1
  | Op.slv lvl => solve lvl g

/-- Apply a sequence of operations. -/
def runOps (g : Grid) (ops : List Op) : Grid := ops.foldl applyOp g

/-- The invariant the code actually maintains (cf. claim C1): domains stay
within 1..9, and a locked cell's value is in 1..9 with its domain contained in
the singleton of its value — the domain is `{value}` right after a direct
forcing (`grid_parser`, `find_unique`) and `∅` once the cell went through the
closure's `update_value`, which pops the domain. -/
def Inv (g : Grid) : Prop :=
  ∀ c, (g c).domain ⊆ Finset.Icc 1 9 ∧
    ((g c).locked = true → (g c).value ∈ Finset.Icc 1 9 ∧
      (g c).domain ⊆ {(g c).value})

/-- Preservation relation between grid states: locked cells keep their value
and lockedness, and every domain only shrinks. -/
def Pres (g g' : Grid) : Prop :=
  ∀ c, ((g c).locked = true → (g' c).locked = true ∧ (g' c).value = (g c).value)
    ∧ (g' c).domain ⊆ (g c).domain

/-- A seed with a single clue: 5 at position 0. -/
def seed5 : Fin 81 → Int := fun p => if p.val = 0 then 5 else 0

/-- A seed with a duplicate clue: two 5s in row 0 (positions 0 and 1). -/
def seedDup : Fin 81 → Int :=
  fun p => if p.val = 0 then 5 else if p.val = 1 then 5 else 0

/-- Sixteen conflict-free clues leaving cell 0 as the unique row-0 holder of
BOTH digits 3 and 5: every column 1..8 and every row 1..8 contains one 3 and
one 5, all in distinct units, and row 0, column 0 and box 0 hold no clue. -/
def seedC6List : List Int :=
  [0, 0, 0, 0, 0, 0, 0, 0, 0,
   0, 0, 0, 3, 5, 0, 0, 0, 0,
   0, 0, 0, 0, 0, 0, 3, 5, 0,
   0, 3, 5, 0, 0, 0, 0, 0, 0,
   0, 0, 0, 0, 3, 5, 0, 0, 0,
   0, 0, 0, 0, 0, 0, 0, 3, 5,
   0, 0, 3, 5, 0, 0, 0, 0, 0,
   0, 0, 0, 0, 0, 3, 5, 0, 0,
   0, 5, 0, 0, 0, 0, 0, 0, 3]

/-- The seed of the C6 counterexample, as a position function. -/
def seedC6 : Fin 81 → Int := fun p => seedC6List.getD p.val 0

/-- A fully solved, consistent Sudoku grid (value at row r, column c is
`(3 * (r % 3) + r / 3 + c) % 9 + 1`). -/
def seedSolvedList : List Int :=
  [1, 2, 3, 4, 5, 6, 7, 8, 9,
   4, 5, 6, 7, 8, 9, 1, 2, 3,
   7, 8, 9, 1, 2, 3, 4, 5, 6,
   2, 3, 4, 5, 6, 7, 8, 9, 1,
   5, 6, 7, 8, 9, 1, 2, 3, 4,
   8, 9, 1, 2, 3, 4, 5, 6, 7,
   3, 4, 5, 6, 7, 8, 9, 1, 2,
   6, 7, 8, 9, 1, 2, 3, 4, 5,
   9, 1, 2, 3, 4, 5, 6, 7, 8]

/-- The solved seed, as a position function. -/
def seedSolved : Fin 81 → Int := fun p => seedSolvedList.getD p.val 0

/-- The witness grid for the amended C6: in row 0, cell 0 holds `{4, 5}` and
the other cells hold `{1, 2, 3}`, so digit 5 (the largest digit present) has
cell 0 as its unique non-final holder. -/
def gridC6w : Grid :=
  fun c => if c.val = 0 then ⟨0, {4, 5}, false⟩ else ⟨0, {1, 2, 3}, false⟩

/-- The witness grid for C7: in row 0, cells 0 and 1 hold exactly `{1, 2}`
(a naked pair) and the other cells hold `{1, 2, 3}`. -/
def gridC7w : Grid :=
  fun c => if c.val ≤ 1 then ⟨0, {1, 2}, false⟩ else ⟨0, {1, 2, 3}, false⟩

/-- The witness grid for C8: cell 0 is unlocked with the singleton candidate
set `{5}`; every other cell is fresh. -/
def gridC8w : Grid := Function.update initGrid 0 ⟨0, {5}, false⟩

/-- A concrete pop chain for C8's witness: it starts at `gridC8w` with cell 0
on the worklist, performs the successful pop of cell 0 (which finalizes the
cell at 5 and propagates), and stays at the resulting state, whose worklist
is empty. -/
def c8Chain : Nat → Grid × Finset (Fin 81)
  | 0 => (gridC8w, {0})
  | _ + 1 => svPopStep gridC8w {0} 0

/-- A seed of 81 clues forms a fully solved, consistent Sudoku: every clue is
in 1..9 and two distinct cells of a common unit never hold the same clue. -/
def SolvedSeed (seed : Fin 81 → Int) : Prop :=
  (∀ p, 1 ≤ seed p ∧ seed p ≤ 9) ∧
  ∀ p q : Fin 81, p ≠ q →
    (lineOf p = lineOf q ∨ colOf p = colOf q ∨ squareOf p = squareOf q) →
    seed p ≠ seed q

/-! ### Characterization of `propagate` -/

lemma neighborList_nodup (c : Fin 81) : (neighborList c).Nodup :=
  (List.nodup_finRange 81).filter _

lemma mem_neighborList {c d : Fin 81} :
    d ∈ neighborList c ↔
      lineOf d = lineOf c ∨ colOf d = colOf c ∨ squareOf d = squareOf c := by
  simp [neighborList, List.mem_filter, List.mem_finRange]

lemma self_mem_neighborList (c : Fin 81) : c ∈ neighborList c := by
  simp [mem_neighborList]

lemma pfold_spec (v : Nat) :
    ∀ (l : List (Fin 81)), l.Nodup → ∀ (g : Grid) (s : Finset (Fin 81)),
      (∀ q, q ∉ l →
          (l.foldl (pstep v) (g, s)).1 q = g q ∧
          ((q ∈ (l.foldl (pstep v) (g, s)).2) ↔ q ∈ s)) ∧
      (∀ q, q ∈ l →
          (l.foldl (pstep v) (g, s)).1 q =
            (if (g q).locked = false ∧ v ∈ (g q).domain then
               { g q with domain := (g q).domain.erase v } else g q) ∧
          ((q ∈ (l.foldl (pstep v) (g, s)).2) ↔ q ∈ s ∨
             ((g q).locked = false ∧ v ∈ (g q).domain ∧
               ((g q).domain.erase v).card = 1))) := by
  intro l
  induction l with
  | nil => intro _ g s; exact ⟨fun q _ => ⟨rfl, Iff.rfl⟩, fun q hq => absurd hq (by simp)⟩
  | cons n t ih =>
    intro hnd g s
    have hnt : n ∉ t := (List.nodup_cons.mp hnd).1
    have htnd : t.Nodup := (List.nodup_cons.mp hnd).2
    have hfold : (n :: t).foldl (pstep v) (g, s) = t.foldl (pstep v) (pstep v (g, s) n) := rfl
    have h1 : ∀ q, q ≠ n → (pstep v (g, s) n).1 q = g q := by
      intro q hq
      unfold pstep
      split
      · exact Function.update_noteq hq _ _
      · rfl
    have h2 : (pstep v (g, s) n).1 n =
        (if (g n).locked = false ∧ v ∈ (g n).domain then
          { g n with domain := (g n).domain.erase v } else g n) := by
      unfold pstep
      split
      · simp [Function.update_same]
      · rfl
    have h3 : ∀ q, q ∈ (pstep v (g, s) n).2 ↔ q ∈ s ∨
        (q = n ∧ (g n).locked = false ∧ v ∈ (g n).domain ∧
          ((g n).domain.erase v).card = 1) := by
      intro q
      unfold pstep
      split
      · rename_i hcond
        split
        · rename_i hcard
          simp only [Finset.mem_insert]
          constructor
          · rintro (rfl | hs)
            · exact Or.inr ⟨rfl, hcond.1, hcond.2, hcard⟩
            · exact Or.inl hs
          · rintro (hs | ⟨rfl, _⟩)
            · exact Or.inr hs
            · exact Or.inl rfl
        · rename_i hcard
          constructor
          · exact Or.inl
          · rintro (hs | ⟨rfl, _, _, hc⟩)
            · exact hs
            · exact absurd hc hcard
      · rename_i hcond
        constructor
        · exact Or.inl
        · rintro (hs | ⟨rfl, hl, hm, _⟩)
          · exact hs
          · exact absurd ⟨hl, hm⟩ hcond
    obtain ⟨ihout, ihin⟩ := ih htnd (pstep v (g, s) n).1 (pstep v (g, s) n).2
    rw [hfold]
    constructor
    · intro q hq
      have hqn : q ≠ n := fun h => hq (h ▸ List.mem_cons_self n t)
      have hqt : q ∉ t := fun h => hq (List.mem_cons_of_mem n h)
      obtain ⟨e1, e2⟩ := ihout q hqt
      refine ⟨by rw [e1, h1 q hqn], ?_⟩
      rw [e2, h3 q]
      constructor
      · rintro (hs | ⟨rfl, _⟩)
        · exact hs
        · exact absurd rfl hqn
      · exact Or.inl
    · intro q hq
      rcases List.mem_cons.mp hq with rfl | hqt
      · by_cases hqt' : q ∈ t
        · obtain ⟨e1, e2⟩ := ihin q hqt'
          exact absurd hqt' hnt
        · obtain ⟨e1, e2⟩ := ihout q hqt'
          refine ⟨by rw [e1, h2], ?_⟩
          rw [e2, h3 q]
          constructor
          · rintro (hs | ⟨_, h⟩)
            · exact Or.inl hs
            · exact Or.inr h
          · rintro (hs | h)
            · exact Or.inl hs
            · exact Or.inr ⟨rfl, h⟩
      · have hqn : q ≠ n := fun h => hnt (h ▸ hqt)
        obtain ⟨e1, e2⟩ := ihin q hqt
        refine ⟨by rw [e1, h1 q hqn], ?_⟩
        rw [e2, h3 q]
        constructor
        · rintro ((hs | ⟨rfl, _⟩) | h)
          · exact Or.inl hs
          · exact absurd rfl hqn
          · exact Or.inr (by rwa [h1 q hqn] at h)
        · rintro (hs | h)
          · exact Or.inl (Or.inl hs)
          · exact Or.inr (by rwa [h1 q hqn])

lemma propagate_fst_apply (g : Grid) (c q : Fin 81) :
    (propagate g c).1 q =
      if q ∈ neighborList c ∧ (g q).locked = false ∧ (g c).value ∈ (g q).domain
      then { g q with domain := (g q).domain.erase (g c).value } else g q := by
  by_cases hq : q ∈ neighborList c
  · have := ((pfold_spec (g c).value (neighborList c) (neighborList_nodup c) g ∅).2
      q hq).1
    unfold propagate
    rw [this]
    by_cases hcond : (g q).locked = false ∧ (g c).value ∈ (g q).domain
    · rw [if_pos hcond, if_pos ⟨hq, hcond⟩]
    · rw [if_neg hcond, if_neg (fun h => hcond ⟨h.2.1, h.2.2⟩)]
  · have := ((pfold_spec (g c).value (neighborList c) (neighborList_nodup c) g ∅).1
      q hq).1
    unfold propagate
    rw [this, if_neg (fun h => hq h.1)]

lemma propagate_snd_mem (g : Grid) (c q : Fin 81) :
    q ∈ (propagate g c).2 ↔
      q ∈ neighborList c ∧ (g q).locked = false ∧ (g c).value ∈ (g q).domain ∧
        ((g q).domain.erase (g c).value).card = 1 := by
  by_cases hq : q ∈ neighborList c
  · have := ((pfold_spec (g c).value (neighborList c) (neighborList_nodup c) g ∅).2
      q hq).2
    unfold propagate
    rw [this]
    simp only [Finset.not_mem_empty, false_or]
    exact ⟨fun h => ⟨hq, h⟩, fun h => h.2⟩
  · have := ((pfold_spec (g c).value (neighborList c) (neighborList_nodup c) g ∅).1
      q hq).2
    unfold propagate
    rw [this]
    simp only [Finset.not_mem_empty, false_iff]
    exact fun h => hq h.1

lemma propagate_locked (g : Grid) (c q : Fin 81) :
    ((propagate g c).1 q).locked = (g q).locked := by
  rw [propagate_fst_apply]; split <;> rfl

lemma propagate_value (g : Grid) (c q : Fin 81) :
    ((propagate g c).1 q).value = (g q).value := by
  rw [propagate_fst_apply]; split <;> rfl

lemma propagate_domain_subset (g : Grid) (c q : Fin 81) :
    ((propagate g c).1 q).domain ⊆ (g q).domain := by
  rw [propagate_fst_apply]
  split
  · exact Finset.erase_subset _ _
  · exact Finset.Subset.refl _

lemma propagate_of_locked (g : Grid) (c q : Fin 81)
    (h : (g q).locked = true) : (propagate g c).1 q = g q := by
  rw [propagate_fst_apply, if_neg]
  rintro ⟨_, hl, _⟩
  rw [h] at hl
  exact Bool.noConfusion hl

lemma propagate_snd_unlocked (g : Grid) (c q : Fin 81)
    (h : q ∈ (propagate g c).2) : (g q).locked = false :=
  ((propagate_snd_mem g c q).mp h).2.1

/-! ### `update_value` and basic closure facts -/

lemma update_value_of_card_one {cell : Cell} (h : cell.domain.card = 1) :
    update_value cell = (⟨cell.domain.min.untop' 0, ∅, true⟩, true) := by
  unfold update_value
  rw [if_pos h]

lemma update_value_of_card_ne {cell : Cell} (h : ¬cell.domain.card = 1) :
    update_value cell = (cell, false) := by
  unfold update_value
  rw [if_neg h]

lemma update_value_snd {cell : Cell} :
    (update_value cell).2 = true ↔ cell.domain.card = 1 := by
  unfold update_value
  split
  · simpa
  · simpa

lemma min_untop_of_singleton {s : Finset Nat} {a : Nat} (h : s = {a}) :
    s.min.untop' 0 = a := by
  subst h
  rw [Finset.min_singleton]
  rfl

lemma singleton_of_card_one_subset {s : Finset Nat} {v : Nat}
    (h1 : s.card = 1) (h2 : s ⊆ {v}) : s = {v} := by
  obtain ⟨a, ha⟩ := Finset.card_eq_one.mp h1
  subst ha
  have := h2 (Finset.mem_singleton_self a)
  rw [Finset.mem_singleton] at this
  rw [this]

lemma propagate_inv {g : Grid} (c : Fin 81) (h : Inv g) :
    Inv (propagate g c).1 := by
  intro q
  rw [propagate_fst_apply]
  split
  · rename_i hcond
    refine ⟨(Finset.erase_subset _ _).trans (h q).1, ?_⟩
    intro hl
    have hl' : (g q).locked = true := hl
    rw [hcond.2.1] at hl'
    exact Bool.noConfusion hl'
  · exact h q

lemma did_step_cell {g : Grid} {c : Fin 81} (hcard : (g c).domain.card = 1) :
    (propagate (Function.update g c (update_value (g c)).1) c).1 c =
      ⟨(g c).domain.min.untop' 0, ∅, true⟩ := by
  have hupd : (Function.update g c (update_value (g c)).1) c =
      ⟨(g c).domain.min.untop' 0, ∅, true⟩ := by
    rw [Function.update_same, update_value_of_card_one hcard]
  rw [propagate_of_locked _ _ _ (by rw [hupd]), hupd]

lemma did_step_cell_ne {g : Grid} {c q : Fin 81} (hq : q ≠ c)
    (hlq : (g q).locked = true) :
    (propagate (Function.update g c (update_value (g c)).1) c).1 q = g q := by
  have hupd : (Function.update g c (update_value (g c)).1) q = g q :=
    Function.update_noteq hq _ _
  rw [propagate_of_locked _ _ _ (by rw [hupd]; exact hlq), hupd]

lemma inv_update_did {g : Grid} {c : Fin 81} (h : Inv g)
    (hcard : (g c).domain.card = 1) :
    Inv (Function.update g c (update_value (g c)).1) := by
  intro q
  by_cases hq : q = c
  · rw [hq, Function.update_same, update_value_of_card_one hcard]
    obtain ⟨a, ha⟩ := Finset.card_eq_one.mp hcard
    have hmin := min_untop_of_singleton ha
    refine ⟨Finset.empty_subset _, fun _ => ⟨?_, Finset.empty_subset _⟩⟩
    show (g c).domain.min.untop' 0 ∈ Finset.Icc 1 9
    rw [hmin]
    exact (h c).1 (ha ▸ Finset.mem_singleton_self a)
  · rw [Function.update_noteq hq]
    exact h q

/-! ### Fuel-independent facts about the closure `svFuel` -/

lemma svFuel_domain_subset :
    ∀ (n : Nat) (g : Grid) (W : Finset (Fin 81)) (q : Fin 81),
      ((svFuel n g W).1 q).domain ⊆ (g q).domain := by
  intro n
  induction n with
  | zero => intro g W q; exact Finset.Subset.refl _
  | succ n ih =>
    intro g W q
    rw [svFuel]
    by_cases hW : W.Nonempty
    · rw [dif_pos hW]
      by_cases hd : (update_value (g (W.min' hW))).2 = true
      · rw [if_pos hd]
        have hcard := update_value_snd.mp hd
        refine (ih _ _ q).trans ?_
        refine (propagate_domain_subset _ _ q).trans ?_
        by_cases hq : q = W.min' hW
        · subst hq
          rw [Function.update_same, update_value_of_card_one hcard]
          exact Finset.empty_subset _
        · rw [Function.update_noteq hq]
      · rw [if_neg hd]
        exact ih _ _ q
    · rw [dif_neg hW]

lemma svFuel_locked_value :
    ∀ (n : Nat) (g : Grid) (W : Finset (Fin 81)) (q : Fin 81),
      (g q).locked = true → (g q).domain ⊆ {(g q).value} →
      ((svFuel n g W).1 q).locked = true ∧
        ((svFuel n g W).1 q).value = (g q).value := by
  intro n
  induction n with
  | zero => intro g W q hl _; exact ⟨hl, rfl⟩
  | succ n ih =>
    intro g W q hl hsub
    rw [svFuel]
    by_cases hW : W.Nonempty
    · rw [dif_pos hW]
      by_cases hd : (update_value (g (W.min' hW))).2 = true
      · rw [if_pos hd]
        have hcard := update_value_snd.mp hd
        by_cases hq : q = W.min' hW
        · have hdom : (g (W.min' hW)).domain = {(g (W.min' hW)).value} := by
            rw [← hq]
            exact singleton_of_card_one_subset (hq ▸ hcard) (hq ▸ hsub)
          have hprop := did_step_cell (g := g) (c := W.min' hW) hcard
          rw [min_untop_of_singleton hdom] at hprop
          have := ih (propagate (Function.update g (W.min' hW)
              (update_value (g (W.min' hW))).1) (W.min' hW)).1
            ((W.erase (W.min' hW)) ∪ (propagate (Function.update g (W.min' hW)
              (update_value (g (W.min' hW))).1) (W.min' hW)).2) q
            (by rw [hq, hprop]) (by rw [hq, hprop]; exact Finset.empty_subset _)
          rw [hq] at this ⊢
          rw [hprop] at this
          exact this
        · have hprop := did_step_cell_ne (g := g) (c := W.min' hW) (q := q) hq hl
          have := ih (propagate (Function.update g (W.min' hW)
              (update_value (g (W.min' hW))).1) (W.min' hW)).1
            ((W.erase (W.min' hW)) ∪ (propagate (Function.update g (W.min' hW)
              (update_value (g (W.min' hW))).1) (W.min' hW)).2) q
            (by rw [hprop]; exact hl) (by rw [hprop]; exact hsub)
          rw [hprop] at this
          exact this
      · rw [if_neg hd]
        exact ih _ _ q hl hsub
    · rw [dif_neg hW]
      exact ⟨hl, rfl⟩

lemma svFuel_inv :
    ∀ (n : Nat) (g : Grid) (W : Finset (Fin 81)), Inv g → Inv (svFuel n g W).1 := by
  intro n
  induction n with
  | zero => intro g W h; exact h
  | succ n ih =>
    intro g W h
    rw [svFuel]
    by_cases hW : W.Nonempty
    · rw [dif_pos hW]
      by_cases hd : (update_value (g (W.min' hW))).2 = true
      · rw [if_pos hd]
        have hcard := update_value_snd.mp hd
        exact ih _ _ (propagate_inv _ (inv_update_did h hcard))
      · rw [if_neg hd]
        exact ih _ _ h
    · rw [dif_neg hW]
      exact h

lemma svFuel_fst_of_false :
    ∀ (n : Nat) (g : Grid) (W : Finset (Fin 81)),
      (svFuel n g W).2 = false → (svFuel n g W).1 = g := by
  intro n
  induction n with
  | zero => intro g W _; rfl
  | succ n ih =>
    intro g W
    rw [svFuel]
    by_cases hW : W.Nonempty
    · rw [dif_pos hW]
      by_cases hd : (update_value (g (W.min' hW))).2 = true
      · rw [if_pos hd]
        intro h
        exact absurd h (by simp)
      · rw [if_neg hd]
        exact ih _ _
    · rw [dif_neg hW]
      intro _
      rfl

lemma svFuel_ne_of_true :
    ∀ (n : Nat) (g : Grid) (W : Finset (Fin 81)),
      (svFuel n g W).2 = true → (svFuel n g W).1 ≠ g := by
  intro n
  induction n with
  | zero => intro g W h; exact absurd h (by simp [svFuel])
  | succ n ih =>
    intro g W
    rw [svFuel]
    by_cases hW : W.Nonempty
    · rw [dif_pos hW]
      by_cases hd : (update_value (g (W.min' hW))).2 = true
      · rw [if_pos hd]
        intro _
        have hcard := update_value_snd.mp hd
        intro heq
        have hupd : (Function.update g (W.min' hW) (update_value (g (W.min' hW))).1)
            (W.min' hW) = ⟨(g (W.min' hW)).domain.min.untop' 0, ∅, true⟩ := by
          rw [Function.update_same, update_value_of_card_one hcard]
        have hprop : (propagate (Function.update g (W.min' hW)
            (update_value (g (W.min' hW))).1) (W.min' hW)).1 (W.min' hW) =
            ⟨(g (W.min' hW)).domain.min.untop' 0, ∅, true⟩ := by
          rw [propagate_of_locked _ _ _ (by rw [hupd]), hupd]
        have hsub := svFuel_domain_subset n (propagate (Function.update g (W.min' hW)
            (update_value (g (W.min' hW))).1) (W.min' hW)).1
          ((W.erase (W.min' hW)) ∪ (propagate (Function.update g (W.min' hW)
            (update_value (g (W.min' hW))).1) (W.min' hW)).2) (W.min' hW)
        rw [hprop] at hsub
        have hempty : ((svFuel n (propagate (Function.update g (W.min' hW)
            (update_value (g (W.min' hW))).1) (W.min' hW)).1
            ((W.erase (W.min' hW)) ∪ (propagate (Function.update g (W.min' hW)
            (update_value (g (W.min' hW))).1) (W.min' hW)).2)).1 (W.min' hW)).domain
            = ∅ := Finset.subset_empty.mp hsub
        have hc := congrFun heq (W.min' hW)
        have : (g (W.min' hW)).domain = ∅ := by
          rw [← hc]
          exact hempty
        rw [this] at hcard
        simp at hcard
      · rw [if_neg hd]
        exact ih _ _
    · rw [dif_neg hW]
      intro h
      exact absurd h (by simp)

/-! ### `set_values`: wrappers, measure decrease, fuel adequacy -/

lemma set_values_domain_subset (g : Grid) (W : Finset (Fin 81)) (q : Fin 81) :
    ((set_values g W).1 q).domain ⊆ (g q).domain :=
  svFuel_domain_subset _ _ _ _

lemma set_values_locked_value (g : Grid) (W : Finset (Fin 81)) (q : Fin 81)
    (hl : (g q).locked = true) (hsub : (g q).domain ⊆ {(g q).value}) :
    ((set_values g W).1 q).locked = true ∧
      ((set_values g W).1 q).value = (g q).value :=
  svFuel_locked_value _ _ _ _ hl hsub

lemma set_values_inv {g : Grid} (W : Finset (Fin 81)) (h : Inv g) :
    Inv (set_values g W).1 :=
  svFuel_inv _ _ _ h

lemma set_values_false_iff (g : Grid) (W : Finset (Fin 81)) :
    (set_values g W).2 = false ↔ (set_values g W).1 = g := by
  constructor
  · exact svFuel_fst_of_false _ _ _
  · intro h
    by_contra hne
    have htrue : (set_values g W).2 = true := by
      cases hsv : (set_values g W).2
      · exact absurd hsv hne
      · rfl
    exact svFuel_ne_of_true _ _ _ htrue h

lemma set_values_empty (g : Grid) : set_values g ∅ = (g, false) := by
  unfold set_values
  rw [svFuel]
  rw [dif_neg (by simp)]

lemma totalDomain_update (g : Grid) (c : Fin 81) (cell : Cell) :
    totalDomain (Function.update g c cell) + (g c).domain.card =
      totalDomain g + cell.domain.card := by
  have hpt : ∀ q, ((Function.update g c cell) q).domain.card =
      Function.update (fun q => (g q).domain.card) c cell.domain.card q := by
    intro q
    by_cases hq : q = c
    · rw [hq, Function.update_same, Function.update_same]
    · rw [Function.update_noteq hq, Function.update_noteq hq]
  have h1 : totalDomain (Function.update g c cell) =
      cell.domain.card + ∑ q ∈ Finset.univ \ {c}, (g q).domain.card := by
    rw [totalDomain, Finset.sum_congr rfl (fun q _ => hpt q),
      Finset.sum_update_of_mem (Finset.mem_univ c)]
  have h2 : totalDomain g =
      (∑ q ∈ Finset.univ \ {c}, (g q).domain.card) + (g c).domain.card := by
    rw [totalDomain, ← Finset.sum_eq_sum_diff_singleton_add (Finset.mem_univ c)]
  omega

lemma unlockedCount_update (g : Grid) (c : Fin 81) (cell : Cell) :
    unlockedCount (Function.update g c cell) +
        (if (g c).locked = false then 1 else 0) =
      unlockedCount g + (if cell.locked = false then 1 else 0) := by
  have hpt : ∀ q, (if ((Function.update g c cell) q).locked = false then 1 else 0) =
      Function.update (fun q => if (g q).locked = false then 1 else 0) c
        (if cell.locked = false then 1 else 0) q := by
    intro q
    by_cases hq : q = c
    · rw [hq, Function.update_same, Function.update_same]
    · rw [Function.update_noteq hq, Function.update_noteq hq]
  have h1 : unlockedCount (Function.update g c cell) =
      (if cell.locked = false then 1 else 0) +
        ∑ q ∈ Finset.univ \ {c}, (if (g q).locked = false then 1 else 0) := by
    rw [unlockedCount, Finset.sum_congr rfl (fun q _ => hpt q),
      Finset.sum_update_of_mem (Finset.mem_univ c)]
  have h2 : unlockedCount g =
      (∑ q ∈ Finset.univ \ {c}, (if (g q).locked = false then 1 else 0)) +
        (if (g c).locked = false then 1 else 0) := by
    rw [unlockedCount, ← Finset.sum_eq_sum_diff_singleton_add (Finset.mem_univ c)]
  omega

lemma propagate_unlocked_eq (g : Grid) (c : Fin 81) :
    unlockedCount (propagate g c).1 = unlockedCount g := by
  unfold unlockedCount
  exact Finset.sum_congr rfl (fun q _ => by rw [propagate_locked])

lemma propagate_totalDomain_le (g : Grid) (c : Fin 81) :
    totalDomain (propagate g c).1 ≤ totalDomain g :=
  Finset.sum_le_sum (fun q _ => Finset.card_le_card (propagate_domain_subset g c q))

lemma card_le_81 (W : Finset (Fin 81)) : W.card ≤ 81 := by
  have := Finset.card_le_univ W
  simpa using this

lemma svMeasure_did_lt {g : Grid} {W : Finset (Fin 81)} {c : Fin 81}
    (hc : c ∈ W) (hcard : (g c).domain.card = 1) :
    svMeasure (propagate (Function.update g c (update_value (g c)).1) c).1
        ((W.erase c) ∪ (propagate (Function.update g c (update_value (g c)).1) c).2)
      < svMeasure g W := by
  have hlk : ((update_value (g c)).1).locked = true := by
    rw [update_value_of_card_one hcard]
  have hdc : ((update_value (g c)).1).domain.card = 0 := by
    rw [update_value_of_card_one hcard]
    exact Finset.card_empty
  have hu' := propagate_unlocked_eq (Function.update g c (update_value (g c)).1) c
  have ht' := propagate_totalDomain_le (Function.update g c (update_value (g c)).1) c
  have hu := unlockedCount_update g c (update_value (g c)).1
  have ht := totalDomain_update g c (update_value (g c)).1
  rw [hlk] at hu
  rw [hdc] at ht
  rw [hcard] at ht
  simp only [if_neg (by simp : ¬((true : Bool) = false))] at hu
  have hw := card_le_81
    ((W.erase c) ∪ (propagate (Function.update g c (update_value (g c)).1) c).2)
  have hwpos : 0 < W.card := Finset.card_pos.mpr ⟨c, hc⟩
  unfold svMeasure
  rw [hu']
  by_cases hl : (g c).locked = false
  · rw [if_pos hl] at hu
    omega
  · rw [if_neg hl] at hu
    omega

lemma svMeasure_skip_lt {g : Grid} {W : Finset (Fin 81)} {c : Fin 81}
    (hc : c ∈ W) : svMeasure g (W.erase c) < svMeasure g W := by
  unfold svMeasure
  have h1 := Finset.card_erase_of_mem hc
  have h2 : 0 < W.card := Finset.card_pos.mpr ⟨c, hc⟩
  omega

lemma svFuel_congr : ∀ (μ n m : Nat) (g : Grid) (W : Finset (Fin 81)),
    svMeasure g W ≤ μ → svMeasure g W < n → svMeasure g W < m →
    svFuel n g W = svFuel m g W := by
  intro μ
  induction μ with
  | zero =>
    intro n m g W hμ hn hm
    have hW : W = ∅ := by
      have : W.card = 0 := by
        have := hμ
        unfold svMeasure at this
        omega
      exact Finset.card_eq_zero.mp this
    obtain ⟨n', rfl⟩ : ∃ n', n = n' + 1 := ⟨n - 1, by omega⟩
    obtain ⟨m', rfl⟩ : ∃ m', m = m' + 1 := ⟨m - 1, by omega⟩
    rw [svFuel, svFuel, hW, dif_neg (by simp), dif_neg (by simp)]
  | succ μ ih =>
    intro n m g W hμ hn hm
    obtain ⟨n', rfl⟩ : ∃ n', n = n' + 1 := ⟨n - 1, by omega⟩
    obtain ⟨m', rfl⟩ : ∃ m', m = m' + 1 := ⟨m - 1, by omega⟩
    by_cases hW : W.Nonempty
    · rw [svFuel, svFuel, dif_pos hW, dif_pos hW]
      by_cases hd : (update_value (g (W.min' hW))).2 = true
      · rw [if_pos hd, if_pos hd]
        have hlt := svMeasure_did_lt (Finset.min'_mem W hW) (update_value_snd.mp hd)
        have := ih n' m'
          (propagate (Function.update g (W.min' hW)
            (update_value (g (W.min' hW))).1) (W.min' hW)).1
          ((W.erase (W.min' hW)) ∪ (propagate (Function.update g (W.min' hW)
            (update_value (g (W.min' hW))).1) (W.min' hW)).2)
          (by omega) (by omega) (by omega)
        rw [this]
      · rw [if_neg hd, if_neg hd]
        have hlt := svMeasure_skip_lt (g := g) (Finset.min'_mem W hW)
        exact ih n' m' g (W.erase (W.min' hW)) (by omega) (by omega) (by omega)
    · rw [svFuel, svFuel, dif_neg hW, dif_neg hW]

lemma set_values_eq_fuel (g : Grid) (W : Finset (Fin 81)) (n : Nat)
    (h : svMeasure g W < n) : set_values g W = svFuel n g W :=
  svFuel_congr (svMeasure g W) _ _ g W le_rfl (Nat.lt_succ_self _) h

lemma set_values_pop_did (g : Grid) (W : Finset (Fin 81)) (h : W.Nonempty)
    (hcard : (g (W.min' h)).domain.card = 1) :
    set_values g W =
      ((set_values
          (propagate (Function.update g (W.min' h) (update_value (g (W.min' h))).1)
            (W.min' h)).1
          ((W.erase (W.min' h)) ∪
            (propagate (Function.update g (W.min' h)
              (update_value (g (W.min' h))).1) (W.min' h)).2)).1,
       true) := by
  have hd : (update_value (g (W.min' h))).2 = true := update_value_snd.mpr hcard
  have hlt := svMeasure_did_lt (Finset.min'_mem W h) hcard
  rw [set_values_eq_fuel
    (propagate (Function.update g (W.min' h) (update_value (g (W.min' h))).1)
      (W.min' h)).1
    ((W.erase (W.min' h)) ∪
      (propagate (Function.update g (W.min' h)
        (update_value (g (W.min' h))).1) (W.min' h)).2)
    (svMeasure g W) hlt]
  unfold set_values
  rw [svFuel, dif_pos h, if_pos hd]

lemma set_values_pop_skip (g : Grid) (W : Finset (Fin 81)) (h : W.Nonempty)
    (hcard : ¬(g (W.min' h)).domain.card = 1) :
    set_values g W = set_values g (W.erase (W.min' h)) := by
  have hd : ¬(update_value (g (W.min' h))).2 = true := by
    rw [update_value_snd]
    exact hcard
  have hlt := svMeasure_skip_lt (g := g) (Finset.min'_mem W h)
  rw [set_values_eq_fuel g (W.erase (W.min' h)) (svMeasure g W) hlt]
  unfold set_values
  rw [svFuel, dif_pos h, if_neg hd]

/-! ### Arbitrary pop order: measure decrease and termination -/

lemma svStep_measure_lt {s t : Grid × Finset (Fin 81)} (h : SVStep s t) :
    svMeasure t.1 t.2 < svMeasure s.1 s.2 := by
  obtain ⟨c, hc, rfl⟩ := h
  unfold svPopStep
  by_cases hd : (update_value (s.1 c)).2 = true
  · rw [if_pos hd]
    exact svMeasure_did_lt hc (update_value_snd.mp hd)
  · rw [if_neg hd]
    exact svMeasure_skip_lt hc

/-! ### Preservation machinery -/

lemma pres_refl (g : Grid) : Pres g g :=
  fun _ => ⟨fun hl => ⟨hl, rfl⟩, Finset.Subset.refl _⟩

lemma pres_trans {g1 g2 g3 : Grid} (h12 : Pres g1 g2) (h23 : Pres g2 g3) :
    Pres g1 g3 := by
  intro c
  refine ⟨fun hl => ?_, ((h23 c).2).trans ((h12 c).2)⟩
  obtain ⟨hl2, hv2⟩ := (h12 c).1 hl
  obtain ⟨hl3, hv3⟩ := (h23 c).1 hl2
  exact ⟨hl3, hv3.trans hv2⟩

lemma foldl_preserves {α β : Type} (P : β → Prop) (f : β → α → β)
    (l : List α) (hf : ∀ st a, a ∈ l → P st → P (f st a)) :
    ∀ st, P st → P (l.foldl f st) := by
  induction l with
  | nil => intro st h; exact h
  | cons a t ih =>
    intro st h
    exact ih (fun st b hb => hf st b (List.mem_cons_of_mem a hb)) _
      (hf st a (List.mem_cons_self a t) h)

lemma propagate_pres (g : Grid) (c : Fin 81) : Pres g (propagate g c).1 := by
  intro q
  refine ⟨fun hl => ?_, propagate_domain_subset g c q⟩
  rw [propagate_of_locked g c q hl]
  exact ⟨hl, rfl⟩

lemma set_values_pres {g : Grid} (W : Finset (Fin 81)) (hinv : Inv g) :
    Pres g (set_values g W).1 := by
  intro q
  refine ⟨fun hl => ?_, set_values_domain_subset g W q⟩
  exact set_values_locked_value g W q hl ((hinv q).2 hl).2

/-! ### `find_unique`: invariant and preservation -/

lemma mem_buckets {g : Grid} {related : List (Fin 81)} {k : Nat} {c : Fin 81} :
    c ∈ buckets g related k ↔
      c ∈ related ∧ (g c).locked = false ∧ k ∈ (g c).domain := by
  simp [buckets, List.mem_filter]

/-- The state predicate maintained along the digit loop of `find_unique`:
domains only shrink with respect to the entry state `g`, cells locked in `g`
are untouched, and the invariant is maintained. -/
def FuMid (g : Grid) (st : Grid × Finset (Fin 81) × Bool) : Prop :=
  (∀ q, (st.1 q).domain ⊆ (g q).domain) ∧
  (∀ q, (g q).locked = true → st.1 q = g q) ∧
  (Inv g → Inv st.1)

lemma fuStep_mid {g : Grid} {related : List (Fin 81)} {k : Nat}
    (hk : 1 ≤ k ∧ k ≤ 9) {st : Grid × Finset (Fin 81) × Bool}
    (hst : FuMid g st) : FuMid g (fuStep g related st k) := by
  obtain ⟨hdom, hlocked, hinv⟩ := hst
  unfold fuStep
  cases hb : buckets g related k with
  | nil => exact ⟨hdom, hlocked, hinv⟩
  | cons c t =>
    cases t with
    | cons c2 t2 => exact ⟨hdom, hlocked, hinv⟩
    | nil =>
      have hc : c ∈ buckets g related k := by rw [hb]; exact List.mem_cons_self c []
      obtain ⟨hcr, hcl, hck⟩ := mem_buckets.mp hc
      have hupd : ∀ q, ((Function.update st.1 c (⟨k, {k}, true⟩ : Cell)) q).domain ⊆
          (g q).domain := by
        intro q
        by_cases hq : q = c
        · rw [hq, Function.update_same]
          intro x hx
          rw [Finset.mem_singleton] at hx
          rw [hx]
          exact hck
        · rw [Function.update_noteq hq]
          exact hdom q
      have hupd_locked : ∀ q, (g q).locked = true →
          (Function.update st.1 c (⟨k, {k}, true⟩ : Cell)) q = g q := by
        intro q hql
        have hq : q ≠ c := by
          intro h
          rw [h, hcl] at hql
          exact Bool.noConfusion hql
        rw [Function.update_noteq hq]
        exact hlocked q hql
      refine ⟨?_, ?_, ?_⟩
      · intro q
        exact (propagate_domain_subset _ _ q).trans (hupd q)
      · intro q hql
        rw [propagate_of_locked _ _ q (by rw [hupd_locked q hql]; exact hql)]
        exact hupd_locked q hql
      · intro hinvg
        refine propagate_inv _ ?_
        intro q
        by_cases hq : q = c
        · rw [hq, Function.update_same]
          refine ⟨?_, fun _ => ⟨?_, ?_⟩⟩
          · intro x hx
            rw [Finset.mem_singleton] at hx
            rw [hx, Finset.mem_Icc]
            exact hk
          · show k ∈ Finset.Icc 1 9
            rw [Finset.mem_Icc]
            exact hk
          · exact Finset.Subset.refl _
        · rw [Function.update_noteq hq]
          exact (hinv hinvg) q

lemma fuFold_mid (g : Grid) (related : List (Fin 81)) :
    FuMid g ((List.range' 1 9).foldl (fuStep g related) (g, ∅, false)) := by
  refine foldl_preserves (FuMid g) (fuStep g related) (List.range' 1 9) ?_ _ ?_
  · intro st k hk hst
    have hk19 : 1 ≤ k ∧ k ≤ 9 := by
      have := List.mem_range'_1.mp hk
      omega
    exact fuStep_mid hk19 hst
  · exact ⟨fun q => Finset.Subset.refl _, fun q _ => rfl, fun h => h⟩

lemma find_unique_inv {g : Grid} (related : List (Fin 81)) (hinv : Inv g) :
    Inv (find_unique g related).1 := by
  unfold find_unique
  exact set_values_inv _ ((fuFold_mid g related).2.2 hinv)

lemma find_unique_pres {g : Grid} (related : List (Fin 81)) (hinv : Inv g) :
    Pres g (find_unique g related).1 := by
  obtain ⟨hdom, hlocked, hmidinv⟩ := fuFold_mid g related
  unfold find_unique
  intro q
  constructor
  · intro hl
    have hq := hlocked q hl
    have hsub : (((List.range' 1 9).foldl (fuStep g related) (g, ∅, false)).1 q).domain
        ⊆ {(((List.range' 1 9).foldl (fuStep g related) (g, ∅, false)).1 q).value} := by
      rw [hq]
      exact ((hinv q).2 hl).2
    have := set_values_locked_value _
      ((List.range' 1 9).foldl (fuStep g related) (g, ∅, false)).2.1 q
      (by rw [hq]; exact hl) hsub
    rw [hq] at this
    exact this
  · exact (set_values_domain_subset _ _ q).trans (hdom q)

/-! ### `find_pairs`: invariant and preservation -/

/-- The state predicate maintained along the removal loop of `find_pairs`:
domains only shrink with respect to the entry state `g`, and no value or
lockedness ever changes. -/
def FpMid (g : Grid) (st : Grid × Bool) : Prop :=
  (∀ q, (st.1 q).domain ⊆ (g q).domain) ∧
  (∀ q, (st.1 q).locked = (g q).locked ∧ (st.1 q).value = (g q).value)

lemma fpMid_inv {g : Grid} {st : Grid × Bool} (h : FpMid g st) (hinv : Inv g) :
    Inv st.1 := by
  intro q
  obtain ⟨hdom, hlv⟩ := h
  refine ⟨(hdom q).trans (hinv q).1, fun hl => ?_⟩
  have hgl : (g q).locked = true := by rw [← (hlv q).1]; exact hl
  refine ⟨(hlv q).2 ▸ ((hinv q).2 hgl).1, ?_⟩
  rw [(hlv q).2]
  exact (hdom q).trans ((hinv q).2 hgl).2

lemma fpRemStep_mid {g : Grid} {related : List (Fin 81)} {K : Finset Nat}
    {st2 : Grid × Bool} (c : Fin 81) (h : FpMid g st2) :
    FpMid g (fpRemStep g related K st2 c) := by
  obtain ⟨hdom, hlv⟩ := h
  by_cases hc : c ∈ pairBucket g related K
  · unfold fpRemStep
    rw [if_pos hc]
    exact ⟨hdom, hlv⟩
  · have hfst : (fpRemStep g related K st2 c).1 =
        Function.update st2.1 c
          { st2.1 c with domain := (st2.1 c).domain \ K } := by
      unfold fpRemStep
      rw [if_neg hc]
    constructor
    · intro q
      rw [hfst]
      by_cases hq : q = c
      · rw [hq, Function.update_same]
        exact Finset.sdiff_subset.trans (hdom c)
      · rw [Function.update_noteq hq]
        exact hdom q
    · intro q
      rw [hfst]
      by_cases hq : q = c
      · rw [hq, Function.update_same]
        exact hlv c
      · rw [Function.update_noteq hq]
        exact hlv q

lemma fpKeyStep_mid {g : Grid} {related : List (Fin 81)} {st : Grid × Bool}
    (K : Finset Nat) (h : FpMid g st) : FpMid g (fpKeyStep g related st K) := by
  unfold fpKeyStep
  split
  · exact foldl_preserves (FpMid g) (fpRemStep g related K) related
      (fun st2 c _ h2 => fpRemStep_mid c h2) st h
  · exact h

lemma fpRed_mid (g : Grid) (related : List (Fin 81)) :
    FpMid g ((pairKeys g related).foldl (fpKeyStep g related) (g, false)) :=
  foldl_preserves (FpMid g) (fpKeyStep g related) (pairKeys g related)
    (fun st K _ h => fpKeyStep_mid K h) _
    ⟨fun q => Finset.Subset.refl _, fun q => ⟨rfl, rfl⟩⟩

lemma find_pairs_inv {g : Grid} (related : List (Fin 81)) (hinv : Inv g) :
    Inv (find_pairs g related).1 := by
  unfold find_pairs
  exact set_values_inv _ (fpMid_inv (fpRed_mid g related) hinv)

lemma find_pairs_pres {g : Grid} (related : List (Fin 81)) (hinv : Inv g) :
    Pres g (find_pairs g related).1 := by
  obtain ⟨hdom, hlv⟩ := fpRed_mid g related
  unfold find_pairs
  intro q
  constructor
  · intro hl
    have hrl : (((pairKeys g related).foldl (fpKeyStep g related) (g, false)).1 q).locked
        = true := by rw [(hlv q).1]; exact hl
    have hsub : (((pairKeys g related).foldl (fpKeyStep g related) (g, false)).1 q).domain
        ⊆ {(((pairKeys g related).foldl (fpKeyStep g related) (g, false)).1 q).value} := by
      rw [(hlv q).2]
      exact (hdom q).trans ((hinv q).2 hl).2
    have := set_values_locked_value _ related.toFinset q hrl hsub
    rw [(hlv q).2] at this
    exact this
  · exact (set_values_domain_subset _ _ q).trans (hdom q)

/-! ### Seeding: invariant and preservation -/

lemma initGrid_inv : Inv initGrid := by
  intro c
  refine ⟨?_, fun hl => Bool.noConfusion hl⟩
  show freshCell.domain ⊆ Finset.Icc 1 9
  decide

lemma parseStep_inv {g : Grid} (p : Fin 81) (v : Int) (hinv : Inv g) :
    Inv (parseStep g p v) := by
  unfold parseStep
  split
  · rename_i hv
    split
    · split
      · rename_i hmem
        refine propagate_inv _ ?_
        intro q
        by_cases hq : q = p
        · rw [hq, Function.update_same]
          have htn : 1 ≤ v.toNat ∧ v.toNat ≤ 9 := by omega
          refine ⟨?_, fun _ => ⟨?_, Finset.Subset.refl _⟩⟩
          · intro x hx
            rw [Finset.mem_singleton] at hx
            rw [hx, Finset.mem_Icc]
            exact htn
          · show v.toNat ∈ Finset.Icc 1 9
            rw [Finset.mem_Icc]
            exact htn
        · rw [Function.update_noteq hq]
          exact hinv q
      · exact hinv
    · exact hinv
  · exact hinv

lemma parseStep_pres (g : Grid) (p : Fin 81) (v : Int) :
    Pres g (parseStep g p v) := by
  unfold parseStep
  split
  · split
    · rename_i hlock
      split
      · rename_i hmem
        have hmid : Pres g (Function.update g p ⟨v.toNat, {v.toNat}, true⟩) := by
          intro q
          by_cases hq : q = p
          · rw [hq, Function.update_same]
            constructor
            · intro hl
              rw [hl] at hlock
              exact Bool.noConfusion hlock
            · intro x hx
              rw [Finset.mem_singleton] at hx
              rw [hx]
              exact hmem
          · rw [Function.update_noteq hq]
            exact ⟨fun hl => ⟨hl, rfl⟩, Finset.Subset.refl _⟩
        exact pres_trans hmid (propagate_pres _ _)
      · exact pres_refl g
    · exact pres_refl g
  · exact pres_refl g

lemma parseGo_pres (seed : Fin 81 → Int) (l : List (Fin 81)) (g : Grid) :
    Pres g (parseGo seed g l) := by
  unfold parseGo
  refine foldl_preserves (Pres g) _ l (fun st p _ h => ?_) g (pres_refl g)
  exact pres_trans h (parseStep_pres st p (seed p))

lemma gridParse_inv (seed : Fin 81 → Int) : Inv (gridParse seed) := by
  unfold gridParse parseGo
  exact foldl_preserves Inv _ (List.finRange 81)
    (fun st p _ h => parseStep_inv p (seed p) h) initGrid initGrid_inv

/-! ### Rounds, driver, operation sequences -/

lemma r1Step_inv_pres {st : Grid × Bool} (u : List (Fin 81)) (h : Inv st.1) :
    Inv (r1Step st u).1 ∧ Pres st.1 (r1Step st u).1 :=
  ⟨find_unique_inv u h, find_unique_pres u h⟩

lemma r2Step_inv_pres {st : Grid × Bool} (u : List (Fin 81)) (h : Inv st.1) :
    Inv (r2Step st u).1 ∧ Pres st.1 (r2Step st u).1 :=
  ⟨find_pairs_inv u (find_unique_inv u h),
   pres_trans (find_unique_pres u h) (find_pairs_pres u (find_unique_inv u h))⟩

lemma roundFold1_inv_pres (g : Grid) :
    ∀ (l : List (List (Fin 81))) (st : Grid × Bool),
      Inv st.1 ∧ Pres g st.1 →
      Inv (l.foldl r1Step st).1 ∧ Pres g (l.foldl r1Step st).1 := by
  intro l
  induction l with
  | nil => intro st hst; exact hst
  | cons u t ih =>
    intro st hst
    obtain ⟨h1, h2⟩ := r1Step_inv_pres u hst.1
    exact ih _ ⟨h1, pres_trans hst.2 h2⟩

lemma roundLvl1_inv_pres {g : Grid} (h : Inv g) :
    Inv (roundLvl1 g).1 ∧ Pres g (roundLvl1 g).1 :=
  roundFold1_inv_pres g unitsAll (g, false) ⟨h, pres_refl g⟩

lemma roundFold2_inv_pres (g : Grid) :
    ∀ (l : List (List (Fin 81))) (st : Grid × Bool),
      Inv st.1 ∧ Pres g st.1 →
      Inv (l.foldl r2Step st).1 ∧ Pres g (l.foldl r2Step st).1 := by
  intro l
  induction l with
  | nil => intro st hst; exact hst
  | cons u t ih =>
    intro st hst
    obtain ⟨h1, h2⟩ := r2Step_inv_pres u hst.1
    exact ih _ ⟨h1, pres_trans hst.2 h2⟩

lemma roundLvl2_inv_pres {g : Grid} (h : Inv g) :
    Inv (roundLvl2 g).1 ∧ Pres g (roundLvl2 g).1 :=
  roundFold2_inv_pres g unitsAll (g, false) ⟨h, pres_refl g⟩

lemma solveGo_inv_pres :
    ∀ (n : Nat) (lvl : Int) (g : Grid), Inv g →
      Inv (solveGo n lvl g) ∧ Pres g (solveGo n lvl g) := by
  intro n
  induction n with
  | zero => intro lvl g h; exact ⟨h, pres_refl g⟩
  | succ n ih =>
    intro lvl g h
    rw [solveGo]
    by_cases h1 : lvl = 1
    · rw [if_pos h1]
      obtain ⟨hi, hp⟩ := roundLvl1_inv_pres h
      split
      · obtain ⟨hi2, hp2⟩ := ih lvl (roundLvl1 g).1 hi
        exact ⟨hi2, pres_trans hp hp2⟩
      · exact ⟨hi, hp⟩
    · rw [if_neg h1]
      by_cases h2 : lvl = 2
      · rw [if_pos h2]
        obtain ⟨hi, hp⟩ := roundLvl2_inv_pres h
        split
        · obtain ⟨hi2, hp2⟩ := ih lvl (roundLvl2 g).1 hi
          exact ⟨hi2, pres_trans hp hp2⟩
        · exact ⟨hi, hp⟩
      · rw [if_neg h2]
        exact ⟨h, pres_refl g⟩

lemma solve_inv {lvl : Int} {g : Grid} (h : Inv g) : Inv (solve lvl g) :=
  (solveGo_inv_pres 81 lvl g h).1

lemma solve_pres {lvl : Int} {g : Grid} (h : Inv g) : Pres g (solve lvl g) :=
  (solveGo_inv_pres 81 lvl g h).2

lemma applyOp_inv {g : Grid} (op : Op) (h : Inv g) : Inv (applyOp g op) := by
  cases op with
  | parse seed => exact gridParse_inv seed
  | prop c => exact propagate_inv c h
  | setv W => exact set_values_inv W h
  | funiq cells => exact find_unique_inv cells h
  | fpairs cells => exact find_pairs_inv cells h
  | slv lvl => exact solve_inv h

lemma runOps_inv (ops : List Op) {g : Grid} (h : Inv g) : Inv (runOps g ops) := by
  unfold runOps
  exact foldl_preserves Inv applyOp ops (fun st op _ hst => applyOp_inv op hst) g h

lemma applyOp_pres {g : Grid} (op : Op) (h : Inv g) (hop : op.isParse = false) :
    Pres g (applyOp g op) := by
  cases op with
  | parse seed => exact Bool.noConfusion hop
  | prop c => exact propagate_pres g c
  | setv W => exact set_values_pres W h
  | funiq cells => exact find_unique_pres cells h
  | fpairs cells => exact find_pairs_pres cells h
  | slv lvl => exact solve_pres h

lemma runOps_pres (ops : List Op) {g : Grid} (h : Inv g)
    (hops : ∀ op ∈ ops, op.isParse = false) : Pres g (runOps g ops) := by
  unfold runOps
  refine foldl_preserves (fun st => Inv st ∧ Pres g st) applyOp ops
    (fun st op hmem hst => ?_) g ⟨h, pres_refl g⟩ |>.2
  exact ⟨applyOp_inv op hst.1,
    pres_trans hst.2 (applyOp_pres op hst.1 (hops op hmem))⟩

/-! ### Remaining helpers for the claims -/

lemma svChain_bound : ∀ (μ : Nat) (f : Nat → Grid × Finset (Fin 81)),
    svMeasure (f 0).1 (f 0).2 ≤ μ →
    (∀ i, (f i).2.Nonempty → SVStep (f i) (f (i + 1))) →
    ∃ n, n ≤ svMeasure (f 0).1 (f 0).2 ∧ (f n).2 = ∅ := by
  intro μ
  induction μ with
  | zero =>
    intro f hμ _
    refine ⟨0, Nat.zero_le _, ?_⟩
    have : (f 0).2.card = 0 := by
      unfold svMeasure at hμ
      omega
    exact Finset.card_eq_zero.mp this
  | succ μ ih =>
    intro f hμ hstep
    by_cases hne : (f 0).2.Nonempty
    · have hlt := svStep_measure_lt (hstep 0 hne)
      obtain ⟨n, hn, he⟩ := ih (fun i => f (i + 1))
        (show svMeasure (f (0 + 1)).1 (f (0 + 1)).2 ≤ μ by omega)
        (fun i h => hstep (i + 1) h)
      have hn' : n ≤ svMeasure (f (0 + 1)).1 (f (0 + 1)).2 := hn
      have he' : (f (n + 1)).2 = ∅ := he
      exact ⟨n + 1, by omega, he'⟩
    · exact ⟨0, Nat.zero_le _, Finset.not_nonempty_iff_eq_empty.mp hne⟩

lemma solveGo_other (n : Nat) (lvl : Int) (g : Grid)
    (h1 : lvl ≠ 1) (h2 : lvl ≠ 2) : solveGo n lvl g = g := by
  cases n with
  | zero => rfl
  | succ n => rw [solveGo, if_neg h1, if_neg h2]

/-! ### `find_unique`: the forced cell and its final value -/

lemma range1_9_split {d : Nat} (h1 : 1 ≤ d) (h9 : d ≤ 9) :
    List.range' 1 9 = List.range' 1 (d - 1) ++ d :: List.range' (d + 1) (9 - d) := by
  interval_cases d <;> rfl

lemma fuStep_hit {g : Grid} {related : List (Fin 81)} {d : Nat} {c : Fin 81}
    (hb : buckets g related d = [c]) (st : Grid × Finset (Fin 81) × Bool) :
    (fuStep g related st d).1 c = ⟨d, {d}, true⟩ := by
  unfold fuStep
  rw [hb]
  rw [propagate_of_locked _ _ _ (by rw [Function.update_same]), Function.update_same]

lemma fuStep_miss {g : Grid} {related : List (Fin 81)} {k : Nat} {c : Fin 81}
    {cl : Cell} (hcl : cl.locked = true)
    (hk : buckets g related k ≠ [c]) (st : Grid × Finset (Fin 81) × Bool)
    (hst : st.1 c = cl) : (fuStep g related st k).1 c = cl := by
  unfold fuStep
  cases hbk : buckets g related k with
  | nil => exact hst
  | cons c' t' =>
    cases t' with
    | cons c2 t2 => exact hst
    | nil =>
      have hne : c ≠ c' := by
        intro h
        rw [← h] at hbk
        exact hk hbk
      rw [propagate_of_locked _ _ c
        (by rw [Function.update_noteq hne, hst]; exact hcl)]
      rw [Function.update_noteq hne]
      exact hst

lemma fuFold_forced {g : Grid} {related : List (Fin 81)} {d : Nat} {c : Fin 81}
    (h1 : 1 ≤ d) (h9 : d ≤ 9)
    (hb : buckets g related d = [c])
    (hmax : ∀ k, d < k → k ≤ 9 → buckets g related k ≠ [c]) :
    ((List.range' 1 9).foldl (fuStep g related) (g, ∅, false)).1 c
      = ⟨d, {d}, true⟩ := by
  rw [range1_9_split h1 h9, List.foldl_append, List.foldl_cons]
  have hpres : ∀ (ks : List Nat), (∀ k ∈ ks, d < k ∧ k ≤ 9) →
      ∀ st : Grid × Finset (Fin 81) × Bool, st.1 c = ⟨d, {d}, true⟩ →
      (ks.foldl (fuStep g related) st).1 c = ⟨d, {d}, true⟩ := by
    intro ks
    induction ks with
    | nil => intro _ st hst; exact hst
    | cons k t ih =>
      intro hks st hst
      rw [List.foldl_cons]
      refine ih (fun k' hk' => hks k' (List.mem_cons_of_mem k hk')) _ ?_
      have hk := hks k (List.mem_cons_self k t)
      exact fuStep_miss rfl (hmax k hk.1 hk.2) st hst
  refine hpres _ (fun k hk => ?_) _ (fuStep_hit hb _)
  have := List.mem_range'_1.mp hk
  omega

lemma find_unique_forced {g : Grid} {related : List (Fin 81)} {d : Nat}
    {c : Fin 81} (h1 : 1 ≤ d) (h9 : d ≤ 9)
    (hb : buckets g related d = [c])
    (hmax : ∀ k, d < k → k ≤ 9 → buckets g related k ≠ [c]) :
    ((find_unique g related).1 c).locked = true ∧
      ((find_unique g related).1 c).value = d := by
  unfold find_unique
  have hcell := fuFold_forced h1 h9 hb hmax
  have := set_values_locked_value
    ((List.range' 1 9).foldl (fuStep g related) (g, ∅, false)).1
    ((List.range' 1 9).foldl (fuStep g related) (g, ∅, false)).2.1 c
    (by rw [hcell]) (by rw [hcell])
  rw [hcell] at this
  exact this

/-! ### `find_pairs`: the removal phase eliminates the pair digits -/

lemma mem_dedupFirst_aux :
    ∀ (l acc : List (Finset Nat)) (x : Finset Nat),
      x ∈ l.foldl (fun acc k => if k ∈ acc then acc else acc ++ [k]) acc ↔
        x ∈ acc ∨ x ∈ l := by
  intro l
  induction l with
  | nil => intro acc x; simp
  | cons k t ih =>
    intro acc x
    rw [List.foldl_cons, ih]
    by_cases hk : k ∈ acc
    · rw [if_pos hk]
      simp only [List.mem_cons]
      constructor
      · rintro (h | h)
        · exact Or.inl h
        · exact Or.inr (Or.inr h)
      · rintro (h | rfl | h)
        · exact Or.inl h
        · exact Or.inl hk
        · exact Or.inr h
    · rw [if_neg hk]
      simp only [List.mem_append, List.mem_cons, List.not_mem_nil, or_false]
      tauto

lemma mem_dedupFirst {l : List (Finset Nat)} {x : Finset Nat} :
    x ∈ dedupFirst l ↔ x ∈ l := by
  unfold dedupFirst
  rw [mem_dedupFirst_aux]
  simp

lemma mem_pairBucket {g : Grid} {related : List (Fin 81)} {K : Finset Nat}
    {c : Fin 81} :
    c ∈ pairBucket g related K ↔ c ∈ related ∧ (g c).domain = K := by
  simp [pairBucket, List.mem_filter]

lemma mem_pairKeys {g : Grid} {related : List (Fin 81)} {K : Finset Nat}
    {c : Fin 81} (hc : c ∈ related) (hd : (g c).domain = K)
    (hcard : K.card = 2) : K ∈ pairKeys g related := by
  unfold pairKeys
  rw [mem_dedupFirst, List.mem_map]
  refine ⟨c, ?_, hd⟩
  rw [List.mem_filter]
  refine ⟨hc, ?_⟩
  rw [decide_eq_true_iff, hd]
  exact hcard

lemma fpRemStep_domain_subset {g : Grid} {related : List (Fin 81)}
    {K : Finset Nat} (st : Grid × Bool) (a q : Fin 81) :
    ((fpRemStep g related K st a).1 q).domain ⊆ (st.1 q).domain := by
  by_cases hc : a ∈ pairBucket g related K
  · unfold fpRemStep
    rw [if_pos hc]
  · have hfst : (fpRemStep g related K st a).1 =
        Function.update st.1 a
          { st.1 a with domain := (st.1 a).domain \ K } := by
      unfold fpRemStep
      rw [if_neg hc]
    rw [hfst]
    by_cases hq : q = a
    · rw [hq, Function.update_same]
      exact Finset.sdiff_subset
    · rw [Function.update_noteq hq]

lemma fpRemFold_domain_subset {g : Grid} {related : List (Fin 81)}
    {K : Finset Nat} :
    ∀ (l : List (Fin 81)) (st : Grid × Bool) (q : Fin 81),
      ((l.foldl (fpRemStep g related K) st).1 q).domain ⊆ (st.1 q).domain := by
  intro l
  induction l with
  | nil => intro st q; exact Finset.Subset.refl _
  | cons a t ih =>
    intro st q
    rw [List.foldl_cons]
    exact (ih _ q).trans (fpRemStep_domain_subset st a q)

lemma fpRemStep_kills {g : Grid} {related : List (Fin 81)} {K : Finset Nat}
    {c : Fin 81} (hc : c ∉ pairBucket g related K) (st : Grid × Bool) :
    ∀ v ∈ K, v ∉ ((fpRemStep g related K st c).1 c).domain := by
  intro v hv
  have hfst : (fpRemStep g related K st c).1 =
      Function.update st.1 c
        { st.1 c with domain := (st.1 c).domain \ K } := by
    unfold fpRemStep
    rw [if_neg hc]
  rw [hfst, Function.update_same]
  simp only [Finset.mem_sdiff]
  rintro ⟨_, hvK⟩
  exact hvK hv

lemma fpRemFold_kills {g : Grid} {related : List (Fin 81)} {K : Finset Nat} :
    ∀ (l : List (Fin 81)) (st : Grid × Bool) (c : Fin 81), c ∈ l →
      c ∉ pairBucket g related K → ∀ v ∈ K,
      v ∉ ((l.foldl (fpRemStep g related K) st).1 c).domain := by
  intro l
  induction l with
  | nil => intro st c hc; exact absurd hc (by simp)
  | cons a t ih =>
    intro st c hc hcb v hv
    rw [List.foldl_cons]
    rcases List.mem_cons.mp hc with rfl | hct
    · by_cases hct : c ∈ t
      · exact ih _ c hct hcb v hv
      · intro hmem
        exact fpRemStep_kills hcb st v hv
          (fpRemFold_domain_subset t (fpRemStep g related K st c) c hmem)
    · exact ih _ c hct hcb v hv

lemma fpKeyStep_domain_subset {g : Grid} {related : List (Fin 81)}
    (K : Finset Nat) (st : Grid × Bool) (q : Fin 81) :
    ((fpKeyStep g related st K).1 q).domain ⊆ (st.1 q).domain := by
  unfold fpKeyStep
  split
  · exact fpRemFold_domain_subset related st q
  · exact Finset.Subset.refl _

lemma fpKeysFold_kills {g : Grid} {related : List (Fin 81)} {K : Finset Nat}
    (hlen : (pairBucket g related K).length = 2) :
    ∀ (B A : List (Finset Nat)) (st : Grid × Bool) (c : Fin 81), c ∈ related →
      c ∉ pairBucket g related K → ∀ v ∈ K,
      v ∉ (((A ++ K :: B).foldl (fpKeyStep g related) st).1 c).domain := by
  intro B
  have hmono : ∀ (l : List (Finset Nat)) (st : Grid × Bool) (q : Fin 81),
      ((l.foldl (fpKeyStep g related) st).1 q).domain ⊆ (st.1 q).domain := by
    intro l
    induction l with
    | nil => intro st q; exact Finset.Subset.refl _
    | cons a t ih =>
      intro st q
      rw [List.foldl_cons]
      exact (ih _ q).trans (fpKeyStep_domain_subset a st q)
  intro A st c hc hcb v hv
  rw [List.foldl_append, List.foldl_cons]
  intro hmem
  have hsub := hmono B (fpKeyStep g related (A.foldl (fpKeyStep g related) st) K) c hmem
  have : v ∈ ((fpKeyStep g related (A.foldl (fpKeyStep g related) st) K).1 c).domain :=
    hsub
  revert this
  unfold fpKeyStep
  rw [if_pos hlen]
  exact fpRemFold_kills related _ c hc hcb v hv

lemma find_pairs_kills {g : Grid} {related : List (Fin 81)} {K : Finset Nat}
    {c1 c2 : Fin 81} (hK : K.card = 2)
    (hb : pairBucket g related K = [c1, c2]) :
    ∀ c ∈ related, c ≠ c1 → c ≠ c2 → ∀ v ∈ K,
      v ∉ ((find_pairs g related).1 c).domain := by
  intro c hc hc1 hc2 v hv
  have hc1b : c1 ∈ pairBucket g related K := by
    rw [hb]
    exact List.mem_cons_self c1 [c2]
  obtain ⟨hc1r, hc1d⟩ := mem_pairBucket.mp hc1b
  have hkey : K ∈ pairKeys g related := mem_pairKeys hc1r hc1d hK
  obtain ⟨A, B, hAB⟩ := List.append_of_mem hkey
  have hcb : c ∉ pairBucket g related K := by
    rw [hb]
    intro hmem
    rcases List.mem_cons.mp hmem with h1 | hmem2
    · exact hc1 h1
    · rcases List.mem_cons.mp hmem2 with h2 | hmem3
      · exact hc2 h2
      · exact absurd hmem3 (by simp)
  have hlen : (pairBucket g related K).length = 2 := by rw [hb]; rfl
  intro hmem
  have hsub := set_values_domain_subset
    ((pairKeys g related).foldl (fpKeyStep g related) (g, false)).1
    related.toFinset c hmem
  rw [hAB] at hsub
  exact fpKeysFold_kills hlen B A (g, false) c hc hcb v hv hsub

/-! ### Seeding: ignored clues and persistence -/

lemma parseStep_ignored {g : Grid} {p : Fin 81} {v : Int}
    (h : ¬(0 < v ∧ v ≤ 9) ∨ (g p).locked = true ∨ v.toNat ∉ (g p).domain) :
    parseStep g p v = g := by
  unfold parseStep
  by_cases h1 : 0 < v ∧ v ≤ 9
  · rw [if_pos h1]
    rcases h with h | h | h
    · exact absurd h1 h
    · rw [if_neg (by rw [h]; exact fun hh => Bool.noConfusion hh)]
    · by_cases h2 : (g p).locked = false
      · rw [if_pos h2, if_neg h]
      · rw [if_neg h2]
  · rw [if_neg h1]

lemma parseGo_append (seed : Fin 81 → Int) (g : Grid) (l1 l2 : List (Fin 81)) :
    parseGo seed g (l1 ++ l2) = parseGo seed (parseGo seed g l1) l2 := by
  unfold parseGo
  rw [List.foldl_append]

/-! ### Seeding a fully solved grid locks all 81 cells -/

lemma mem_freshDomain {n : Nat} (h1 : 1 ≤ n) (h9 : n ≤ 9) :
    n ∈ freshCell.domain := by
  show n ∈ ({1, 2, 3, 4, 5, 6, 7, 8, 9} : Finset Nat)
  interval_cases n <;> decide

/-- Mid-seeding invariant for a solved seed: the positions already processed
(`P`) are locked at their clue with singleton domain, the others are unlocked
with their own clue still in their domain. -/
def ParseInv (seed : Fin 81 → Int) (P : List (Fin 81)) (g : Grid) : Prop :=
  (∀ c, c ∈ P → g c = ⟨(seed c).toNat, {(seed c).toNat}, true⟩) ∧
  (∀ c, c ∉ P → (g c).locked = false ∧ (seed c).toNat ∈ (g c).domain)

lemma parseGo_solved_aux {seed : Fin 81 → Int} (hs : SolvedSeed seed) :
    ∀ (l P : List (Fin 81)) (g : Grid), (P ++ l).Nodup → ParseInv seed P g →
      ParseInv seed (P ++ l) (parseGo seed g l) := by
  intro l
  induction l with
  | nil =>
    intro P g _ h
    rw [List.append_nil]
    exact h
  | cons p t ih =>
    intro P g hnd hinv
    obtain ⟨hproc, hunproc⟩ := hinv
    have hpP : p ∉ P := by
      intro h
      exact (List.nodup_append.mp hnd).2.2 h (List.mem_cons_self p t)
    have hv1 := (hs.1 p).1
    have hv9 := (hs.1 p).2
    have hlp : (g p).locked = false := (hunproc p hpP).1
    have hmp : (seed p).toNat ∈ (g p).domain := (hunproc p hpP).2
    have hstep : parseStep g p (seed p) =
        (propagate (Function.update g p
          ⟨(seed p).toNat, {(seed p).toNat}, true⟩) p).1 := by
      unfold parseStep
      rw [if_pos ⟨by omega, hv9⟩, if_pos hlp, if_pos hmp]
    have hinv' : ParseInv seed (P ++ [p]) (parseStep g p (seed p)) := by
      rw [hstep]
      constructor
      · intro c hc
        rcases List.mem_append.mp hc with hc | hc
        · have hcp : c ≠ p := fun h => hpP (h ▸ hc)
          have hlc : (Function.update g p
              ⟨(seed p).toNat, {(seed p).toNat}, true⟩) c = g c :=
            Function.update_noteq hcp _ _
          rw [propagate_of_locked _ _ c (by rw [hlc, hproc c hc]), hlc]
          exact hproc c hc
        · have hcp : c = p := by simpa using hc
          subst hcp
          rw [propagate_of_locked _ _ c (by rw [Function.update_same]),
            Function.update_same]
      · intro c hc
        have hcP : c ∉ P := fun h => hc (List.mem_append.mpr (Or.inl h))
        have hcp : c ≠ p := fun h =>
          hc (List.mem_append.mpr (Or.inr (by rw [h]; simp)))
        have hupd : (Function.update g p
            ⟨(seed p).toNat, {(seed p).toNat}, true⟩) c = g c :=
          Function.update_noteq hcp _ _
        constructor
        · rw [propagate_locked, hupd]
          exact (hunproc c hcP).1
        · rw [propagate_fst_apply]
          split
          · rename_i hcond
            have hunit : lineOf c = lineOf p ∨ colOf c = colOf p ∨
                squareOf c = squareOf p := mem_neighborList.mp hcond.1
            have hne : seed c ≠ seed p := hs.2 c p hcp hunit
            have hc1 := (hs.1 c).1
            have hc9 := (hs.1 c).2
            have hvp : (Function.update g p
                ⟨(seed p).toNat, {(seed p).toNat}, true⟩) p =
                ⟨(seed p).toNat, {(seed p).toNat}, true⟩ :=
              Function.update_same _ _ _
            show (seed c).toNat ∈ ((Function.update g p
                ⟨(seed p).toNat, {(seed p).toNat}, true⟩) c).domain.erase
              ((Function.update g p
                ⟨(seed p).toNat, {(seed p).toNat}, true⟩) p).value
            rw [hupd, hvp]
            rw [Finset.mem_erase]
            refine ⟨?_, (hunproc c hcP).2⟩
            show (seed c).toNat ≠ (seed p).toNat
            omega
          · rw [hupd]
            exact (hunproc c hcP).2
    have hres := ih (P ++ [p]) (parseStep g p (seed p))
      (by rw [List.append_assoc]; exact hnd) hinv'
    rw [List.append_assoc] at hres
    exact hres

lemma gridParse_solved {seed : Fin 81 → Int} (hs : SolvedSeed seed)
    (c : Fin 81) :
    gridParse seed c = ⟨(seed c).toNat, {(seed c).toNat}, true⟩ := by
  have h := parseGo_solved_aux hs (List.finRange 81) [] initGrid
    (by simpa using List.nodup_finRange 81)
    ⟨fun c hc => absurd hc (by simp),
     fun c _ => ⟨rfl, mem_freshDomain
       (by have := (hs.1 c).1; omega) (by have := (hs.1 c).2; omega)⟩⟩
  exact h.1 c (by simp)

/-! ### Fully locked grids: level-1 rounds change nothing -/

lemma find_unique_def (g : Grid) (u : List (Fin 81)) :
    find_unique g u =
      ((set_values ((List.range' 1 9).foldl (fuStep g u) (g, ∅, false)).1
          ((List.range' 1 9).foldl (fuStep g u) (g, ∅, false)).2.1).1,
       (set_values ((List.range' 1 9).foldl (fuStep g u) (g, ∅, false)).1
          ((List.range' 1 9).foldl (fuStep g u) (g, ∅, false)).2.1).2 ||
         ((List.range' 1 9).foldl (fuStep g u) (g, ∅, false)).2.2) := rfl

lemma find_pairs_def (g : Grid) (u : List (Fin 81)) :
    find_pairs g u =
      ((set_values ((pairKeys g u).foldl (fpKeyStep g u) (g, false)).1
          u.toFinset).1,
       (set_values ((pairKeys g u).foldl (fpKeyStep g u) (g, false)).1
          u.toFinset).2 ||
         ((pairKeys g u).foldl (fpKeyStep g u) (g, false)).2) := rfl

lemma buckets_all_locked {g : Grid} {u : List (Fin 81)}
    (h : ∀ c ∈ u, (g c).locked = true) (k : Nat) : buckets g u k = [] := by
  unfold buckets
  rw [List.filter_eq_nil]
  intro c hc
  rw [decide_eq_true_iff]
  rintro ⟨hl, _⟩
  rw [h c hc] at hl
  exact Bool.noConfusion hl

lemma find_unique_all_locked {g : Grid} {u : List (Fin 81)}
    (h : ∀ c ∈ u, (g c).locked = true) : find_unique g u = (g, false) := by
  have hstep : ∀ (st : Grid × Finset (Fin 81) × Bool) (k : Nat),
      fuStep g u st k = st := by
    intro st k
    unfold fuStep
    rw [buckets_all_locked h k]
  have hfold : ∀ (ks : List Nat) (st : Grid × Finset (Fin 81) × Bool),
      ks.foldl (fuStep g u) st = st := by
    intro ks
    induction ks with
    | nil => intro st; rfl
    | cons k t ih =>
      intro st
      rw [List.foldl_cons, hstep st k]
      exact ih st
  rw [find_unique_def, hfold]
  rw [set_values_empty]
  rfl

lemma roundLvl1_all_locked {g : Grid} (h : ∀ c, (g c).locked = true) :
    roundLvl1 g = (g, false) := by
  have hfold : ∀ (l : List (List (Fin 81))),
      l.foldl r1Step ((g, false) : Grid × Bool) = (g, false) := by
    intro l
    induction l with
    | nil => rfl
    | cons u t ih =>
      rw [List.foldl_cons]
      have hst : r1Step ((g, false) : Grid × Bool) u = (g, false) := by
        show ((find_unique g u).1, false || (find_unique g u).2) = (g, false)
        rw [find_unique_all_locked (fun c _ => h c)]
        rfl
      rw [hst]
      exact ih
  exact hfold unitsAll

lemma solve1_all_locked {g : Grid} (h : ∀ c, (g c).locked = true) :
    solve 1 g = g := by
  show solveGo (80 + 1) 1 g = g
  rw [solveGo, if_pos rfl, roundLvl1_all_locked h]
  rfl

/-! ### Level-2 rounds on a fully seeded grid empty the candidate sets -/

lemma pairKeys_card_one {g : Grid} {u : List (Fin 81)}
    (h : ∀ c ∈ u, (g c).domain.card = 1) : pairKeys g u = [] := by
  unfold pairKeys
  have hf : u.filter (fun c => decide ((g c).domain.card = 2)) = [] := by
    rw [List.filter_eq_nil]
    intro c hc
    rw [decide_eq_true_iff]
    have := h c hc
    omega
  rw [hf]
  rfl

lemma seedSolved_solved : SolvedSeed seedSolved := by
  unfold SolvedSeed
  decide

lemma find_pairs_fst_keys_nil {g : Grid} {u : List (Fin 81)}
    (hk : pairKeys g u = []) :
    (find_pairs g u).1 = (set_values g u.toFinset).1 := by
  show (set_values ((pairKeys g u).foldl (fpKeyStep g u) (g, false)).1
    u.toFinset).1 = _
  rw [hk, List.foldl_nil]

lemma set_values_pop_did_fst (g : Grid) (W : Finset (Fin 81)) (h : W.Nonempty)
    (hcard : (g (W.min' h)).domain.card = 1) :
    (set_values g W).1 =
      (set_values (propagate (Function.update g (W.min' h)
          (update_value (g (W.min' h))).1) (W.min' h)).1
        ((W.erase (W.min' h)) ∪
          (propagate (Function.update g (W.min' h)
            (update_value (g (W.min' h))).1) (W.min' h)).2)).1 := by
  rw [set_values_pop_did g W h hcard]

lemma r2Step_fst_all_locked {g : Grid} {u : List (Fin 81)}
    (h : ∀ c ∈ u, (g c).locked = true) :
    (r2Step ((g, false) : Grid × Bool) u).1 = (find_pairs g u).1 := by
  show (find_pairs (find_unique g u).1 u).1 = (find_pairs g u).1
  rw [find_unique_all_locked h]

lemma solve_eq_succ (lvl : Int) (g : Grid) :
    solve lvl g = solveGo (80 + 1) lvl g := rfl

lemma find_pairs_empties_cell0 :
    ((find_pairs (gridParse seedSolved) (lineCells 0)).1 0).domain = ∅ := by
  have hcard : ∀ c, ((gridParse seedSolved) c).domain.card = 1 := by
    intro c
    rw [gridParse_solved seedSolved_solved c]
    exact Finset.card_singleton _
  rw [find_pairs_fst_keys_nil (pairKeys_card_one (fun c _ => hcard c))]
  have hW : ((lineCells 0).toFinset : Finset (Fin 81)).Nonempty := ⟨0, by decide⟩
  have hmin : ((lineCells 0).toFinset : Finset (Fin 81)).min' hW = 0 :=
    le_antisymm (Finset.min'_le _ 0 (by decide)) (Fin.zero_le _)
  have hcardm : ((gridParse seedSolved)
      (((lineCells 0).toFinset : Finset (Fin 81)).min' hW)).domain.card = 1 :=
    hcard _
  rw [set_values_pop_did_fst (gridParse seedSolved) (lineCells 0).toFinset hW
    hcardm]
  rw [← hmin]
  have hsub := set_values_domain_subset
    (propagate (Function.update (gridParse seedSolved)
      ((lineCells 0).toFinset.min' hW)
      (update_value ((gridParse seedSolved)
        ((lineCells 0).toFinset.min' hW))).1)
      ((lineCells 0).toFinset.min' hW)).1
    (((lineCells 0).toFinset.erase ((lineCells 0).toFinset.min' hW)) ∪
      (propagate (Function.update (gridParse seedSolved)
        ((lineCells 0).toFinset.min' hW)
        (update_value ((gridParse seedSolved)
          ((lineCells 0).toFinset.min' hW))).1)
        ((lineCells 0).toFinset.min' hW)).2)
    ((lineCells 0).toFinset.min' hW)
  rw [did_step_cell hcardm] at hsub
  exact Finset.subset_empty.mp hsub

lemma solve2_seedSolved_cell0_empty :
    ((solve 2 (gridParse seedSolved)) 0).domain = ∅ := by
  have hlocked : ∀ c, ((gridParse seedSolved) c).locked = true := by
    intro c
    rw [gridParse_solved seedSolved_solved c]
  obtain ⟨T, hT⟩ : ∃ T, unitsAll = lineCells 0 :: T := ⟨_, rfl⟩
  have hstL : (r2Step ((gridParse seedSolved, false) : Grid × Bool)
      (lineCells 0)).1 = (find_pairs (gridParse seedSolved) (lineCells 0)).1 :=
    r2Step_fst_all_locked (fun c _ => hlocked c)
  have hinvL : Inv (r2Step ((gridParse seedSolved, false) : Grid × Bool)
      (lineCells 0)).1 :=
    (r2Step_inv_pres (lineCells 0) (gridParse_inv seedSolved)).1
  have hroundPres := roundFold2_inv_pres
    (r2Step ((gridParse seedSolved, false) : Grid × Bool) (lineCells 0)).1 T
    (r2Step ((gridParse seedSolved, false) : Grid × Bool) (lineCells 0))
    ⟨hinvL, pres_refl _⟩
  have hfold : roundLvl2 (gridParse seedSolved) =
      T.foldl r2Step (r2Step ((gridParse seedSolved, false) : Grid × Bool)
        (lineCells 0)) := by
    unfold roundLvl2
    rw [hT, List.foldl_cons]
  have hroundEmpty : ((roundLvl2 (gridParse seedSolved)).1 0).domain = ∅ := by
    rw [hfold]
    refine Finset.subset_empty.mp (((hroundPres.2 0).2).trans ?_)
    rw [hstL, find_pairs_empties_cell0]
  have hinvR : Inv (roundLvl2 (gridParse seedSolved)).1 :=
    (roundLvl2_inv_pres (gridParse_inv seedSolved)).1
  rw [solve_eq_succ, solveGo, if_neg (by decide), if_pos rfl]
  split
  · refine Finset.subset_empty.mp
      ((((solveGo_inv_pres 80 2 (roundLvl2 (gridParse seedSolved)).1 hinvR).2
        0).2).trans ?_)
    rw [hroundEmpty]
  · exact hroundEmpty

/-! ### The claims -/

/-- C1, amended.  The claim stated `final ⇒ value ∈ 1..9 ∧ candidates =
{value}`; the second conjunct is false (see `C1_counterexample`) because the
closure's `update_value` pops the single candidate out of the domain when it
finalizes a cell, leaving `candidates = ∅`.  What holds after any sequence of
operations from a fresh grid is: a locked cell has its value in 1..9 and its
candidate set CONTAINED in `{value}` (either `{value}` right after a direct
forcing, or `∅` after the cell went through `update_value`). -/
theorem C1_final_invariant (ops : List Op) (c : Fin 81)
    (h : ((runOps initGrid ops) c).locked = true) :
    ((runOps initGrid ops) c).value ∈ Finset.Icc 1 9 ∧
      ((runOps initGrid ops) c).domain ⊆ {((runOps initGrid ops) c).value} :=
  (runOps_inv ops initGrid_inv c).2 h

/-- Witness for C1: after seeding clue 5 at cell 0, cell 0 is locked and the
amended invariant holds there. -/
theorem C1_final_invariant_witness :
    ((runOps initGrid [Op.parse seed5]) 0).value ∈ Finset.Icc 1 9 ∧
      ((runOps initGrid [Op.parse seed5]) 0).domain ⊆
        {((runOps initGrid [Op.parse seed5]) 0).value} :=
  C1_final_invariant [Op.parse seed5] 0 (by decide)

/-- Counterexample to C1 as stated: seed clue 5 at cell 0 (cell 0 becomes
final with domain `{5}`), then run the closure on `{cell 0}`: `update_value`
pops the domain, so the final cell 0 has `candidates = ∅ ≠ {value}`. -/
theorem C1_counterexample :
    ((runOps initGrid [Op.parse seed5, Op.setv {0}]) 0).locked = true ∧
      ((runOps initGrid [Op.parse seed5, Op.setv {0}]) 0).domain ≠
        {((runOps initGrid [Op.parse seed5, Op.setv {0}]) 0).value} := by
  decide

/-- C2, amended.  The claim stated that no operation ever changes a finalized
cell's value, candidate set, or finality flag; the candidate-set part is false
(see `C2_counterexample`): the closure pops a locked cell's singleton domain
to `∅`, and `find_pairs` shrinks locked cells' domains too.  What holds, for
every continuation made of non-seeding operations (`grid_parser` resets the
whole grid, destroying all 81 cells as the documented lifecycle allows): the
value and the finality flag of a finalized cell never change, and its
candidate set can only shrink. -/
theorem C2_locked_immutable (ops1 ops2 : List Op) (c : Fin 81)
    (hops : ∀ op ∈ ops2, op.isParse = false)
    (h : ((runOps initGrid ops1) c).locked = true) :
    ((runOps (runOps initGrid ops1) ops2) c).locked = true ∧
      ((runOps (runOps initGrid ops1) ops2) c).value =
        ((runOps initGrid ops1) c).value ∧
      ((runOps (runOps initGrid ops1) ops2) c).domain ⊆
        ((runOps initGrid ops1) c).domain := by
  have hp := runOps_pres ops2 (runOps_inv ops1 initGrid_inv) hops
  exact ⟨((hp c).1 h).1, ((hp c).1 h).2, (hp c).2⟩

/-- Witness for C2: cell 0 locked by the seed keeps value and lockedness
through a closure call. -/
theorem C2_locked_immutable_witness :
    ((runOps (runOps initGrid [Op.parse seed5]) [Op.setv {0}]) 0).locked = true ∧
      ((runOps (runOps initGrid [Op.parse seed5]) [Op.setv {0}]) 0).value =
        ((runOps initGrid [Op.parse seed5]) 0).value ∧
      ((runOps (runOps initGrid [Op.parse seed5]) [Op.setv {0}]) 0).domain ⊆
        ((runOps initGrid [Op.parse seed5]) 0).domain :=
  C2_locked_immutable [Op.parse seed5] [Op.setv {0}] 0
    (by intro op hop; simp at hop; rw [hop]; rfl) (by decide)

/-- Counterexample to C2 as stated: cell 0 is final after seeding, yet the
closure call changes its candidate set (from `{5}` to `∅`). -/
theorem C2_counterexample :
    ((runOps initGrid [Op.parse seed5]) 0).locked = true ∧
      ((runOps (runOps initGrid [Op.parse seed5]) [Op.setv {0}]) 0).domain ≠
        ((runOps initGrid [Op.parse seed5]) 0).domain := by
  decide

/-- C3, amended.  The claim said a popped final cell is skipped unchanged and
that `set_values` returns true iff some cell went from non-final to final;
both are false (see `C3_counterexample`): the code pops cells without testing
`locked`, so ANY popped cell with exactly one candidate — already final or
not — gets `value := the candidate`, `locked := true`, its candidate set
emptied (Python `set.pop`), and `propagate`'s result merged into the
worklist; a popped cell with any other candidate count is dropped unchanged;
and the call returns true iff at least one popped cell had exactly one
candidate, equivalently iff the grid changed. -/
theorem C3_closure_step (g : Grid) (W : Finset (Fin 81)) (h : W.Nonempty) :
    (¬(g (W.min' h)).domain.card = 1 →
        set_values g W = set_values g (W.erase (W.min' h))) ∧
    ((g (W.min' h)).domain.card = 1 →
        set_values g W =
          ((set_values
              (propagate (Function.update g (W.min' h)
                (update_value (g (W.min' h))).1) (W.min' h)).1
              ((W.erase (W.min' h)) ∪
                (propagate (Function.update g (W.min' h)
                  (update_value (g (W.min' h))).1) (W.min' h)).2)).1,
           true)) ∧
    ((set_values g W).2 = false ↔ (set_values g W).1 = g) :=
  ⟨set_values_pop_skip g W h, set_values_pop_did g W h, set_values_false_iff g W⟩

/-- Witness for C3: concrete instance of the return-value characterization. -/
theorem C3_closure_step_witness :
    (set_values initGrid {(0 : Fin 81)}).2 = false ↔
      (set_values initGrid {(0 : Fin 81)}).1 = initGrid :=
  (C3_closure_step initGrid {0} (by decide)).2.2

/-- Counterexample to C3 as stated: cell 0 is final (seeded clue 5, domain
`{5}`); running `set_values` on `{cell 0}` does not skip it (its domain is
emptied) and returns true although no cell went from non-final to final. -/
theorem C3_counterexample :
    (set_values (gridParse seed5) {(0 : Fin 81)}).2 = true ∧
      (∀ c, ((set_values (gridParse seed5) {(0 : Fin 81)}).1 c).locked =
        (gridParse seed5 c).locked) ∧
      ((set_values (gridParse seed5) {(0 : Fin 81)}).1 0).domain ≠
        (gridParse seed5 0).domain := by
  decide

/-- C4, amended.  The claim stated that `solve` at level 1 OR level 2 leaves
a fully seeded solved grid unchanged; the level-2 half is false (see
`C4_counterexample`): `find_pairs` ends with `set_values` on the WHOLE unit,
which pops every locked singleton domain to `∅`.  What holds: after seeding
any fully solved consistent Sudoku, `solve` at level 1 leaves the grid
exactly unchanged, and `solve` at level 2 still preserves every cell's value
and finality flag (only candidate sets are emptied). -/
theorem C4_roundtrip_lvl1 (seed : Fin 81 → Int) (hs : SolvedSeed seed) :
    solve 1 (gridParse seed) = gridParse seed ∧
    ∀ c, ((solve 2 (gridParse seed)) c).locked = true ∧
      ((solve 2 (gridParse seed)) c).value = ((gridParse seed) c).value := by
  have hlocked : ∀ c, ((gridParse seed) c).locked = true := by
    intro c
    rw [gridParse_solved hs c]
  have hp : Pres (gridParse seed) (solve 2 (gridParse seed)) :=
    solve_pres (gridParse_inv seed)
  exact ⟨solve1_all_locked hlocked, fun c => (hp c).1 (hlocked c)⟩

/-- Witness for C4 on the concrete solved seed `seedSolved`. -/
theorem C4_roundtrip_lvl1_witness :
    solve 1 (gridParse seedSolved) = gridParse seedSolved ∧
      ((solve 2 (gridParse seedSolved)) 0).locked = true :=
  ⟨(C4_roundtrip_lvl1 seedSolved (by unfold SolvedSeed; decide)).1,
   ((C4_roundtrip_lvl1 seedSolved (by unfold SolvedSeed; decide)).2 0).1⟩

/-- Counterexample to C4 as stated: `seedSolved` is a fully solved consistent
Sudoku, yet `solve` at level 2 changes the seeded grid — the first
`find_pairs` call (row 0) runs the closure over the whole row and empties
cell 0's candidate set from `{1}` to `∅`. -/
theorem C4_counterexample :
    SolvedSeed seedSolved ∧
      solve 2 (gridParse seedSolved) ≠ gridParse seedSolved := by
  refine ⟨seedSolved_solved, ?_⟩
  intro heq
  have h0 := solve2_seedSolved_cell0_empty
  rw [heq] at h0
  rw [gridParse_solved seedSolved_solved 0] at h0
  have hmem : (seedSolved 0).toNat ∈ (∅ : Finset Nat) := by
    rw [← h0]
    exact Finset.mem_singleton_self _
  simp at hmem

/-- C5: the code bug.  The claim (and the Python docstring, "les autres
cases") says `neighbors(cell)` excludes the cell itself and has 20 elements;
the code builds `set(line + square + column)` and never removes `cell`, so
the result CONTAINS the cell and has 21 elements. -/
theorem C5_neighbors_includes_self : ∀ c : Fin 81,
    c ∈ neighbors c ∧ (neighbors c).card = 21 := by
  decide

/-- C6, amended.  The claim said: if digit `d` is present in the candidate
set of exactly one non-final cell of the unit (`buckets g u d = [c]`), then
after `find_unique` that cell is final with value `d`.  This is false when a
larger digit has the SAME cell as its unique non-final holder (the buckets
are built before any forcing, and the loop over digits 1..9 overwrites the
cell at each of its singleton buckets, so the largest such digit wins — see
`C6_counterexample`).  Amended: if moreover no larger digit has that same
cell as its unique non-final holder, then after `find_unique` the cell is
final with value `d`. -/
theorem C6_hidden_single (g : Grid) (related : List (Fin 81)) (d : Nat)
    (c : Fin 81) (h1 : 1 ≤ d) (h9 : d ≤ 9)
    (hb : buckets g related d = [c])
    (hmax : ∀ k, d < k → k ≤ 9 → buckets g related k ≠ [c]) :
    ((find_unique g related).1 c).locked = true ∧
      ((find_unique g related).1 c).value = d :=
  find_unique_forced h1 h9 hb hmax

/-- Witness for C6: on a grid whose row 0 has cell 0 with candidates `{4, 5}`
and the others with `{1, 2, 3}`, digit 5 has cell 0 as its unique holder and
no larger digit occurs at all; `find_unique` locks cell 0 at 5. -/
theorem C6_hidden_single_witness :
    ((find_unique gridC6w (lineCells 0)).1 0).locked = true ∧
      ((find_unique gridC6w (lineCells 0)).1 0).value = 5 :=
  C6_hidden_single gridC6w (lineCells 0) 5 0 (by decide) (by decide) (by decide)
    (fun k hk1 hk2 => by interval_cases k <;> decide)

/-- Counterexample to C6 as stated: after seeding `seedC6`, digit 3 is
present in the candidate set of exactly one non-final cell of row 0 (cell 0),
yet after `find_unique` on row 0 that cell holds 5, not 3 — digit 5 also had
cell 0 as its unique holder and was processed later. -/
theorem C6_counterexample :
    buckets (gridParse seedC6) (lineCells 0) 3 = [(0 : Fin 81)] ∧
      ((find_unique (gridParse seedC6) (lineCells 0)).1 0).locked = true ∧
      ((find_unique (gridParse seedC6) (lineCells 0)).1 0).value = 5 ∧
      ¬((find_unique (gridParse seedC6) (lineCells 0)).1 0).value = 3 := by
  decide

/-- C7: naked-pair correctness.  If exactly the two non-final cells `c1`,
`c2` of the unit have the same 2-element candidate set `K` (the Python
grouping key `tuple(sorted(domain))` identifies the domain as a set, and its
bucket is exactly `[c1, c2]`), then after `find_pairs` no other cell of the
unit has either digit of `K` among its candidates.  This holds
unconditionally — the code removes the pair digits from final cells too, so
the claim's weaker "(unless that other cell became final first)" proviso is
subsumed. -/
theorem C7_naked_pair (g : Grid) (related : List (Fin 81)) (K : Finset Nat)
    (c1 c2 : Fin 81) (hK : K.card = 2)
    (hb : pairBucket g related K = [c1, c2])
    (hnf1 : (g c1).locked = false) (hnf2 : (g c2).locked = false) :
    ∀ c ∈ related, c ≠ c1 → c ≠ c2 → ∀ v ∈ K,
      v ∉ ((find_pairs g related).1 c).domain :=
  find_pairs_kills hK hb

/-- Witness for C7: on a grid whose row 0 has cells 0 and 1 with candidates
exactly `{1, 2}`, `find_pairs` removes 1 from cell 2's candidates. -/
theorem C7_naked_pair_witness :
    (1 : Nat) ∉ ((find_pairs gridC7w (lineCells 0)).1 2).domain :=
  C7_naked_pair gridC7w (lineCells 0) {1, 2} 0 1 (by decide) (by decide)
    (by decide) (by decide) 2 (by decide) (by decide) (by decide) 1 (by decide)

lemma c8PopWorklist : (svPopStep gridC8w ({0} : Finset (Fin 81)) 0).2 = ∅ := by
  decide

/-- C8: the closure terminates for every pop order: every pop strictly
decreases `svMeasure`, and along any chain of pops the worklist becomes empty
within `svMeasure` steps. -/
theorem C8_closure_terminates :
    (∀ s t : Grid × Finset (Fin 81), SVStep s t →
        svMeasure t.1 t.2 < svMeasure s.1 s.2) ∧
    ∀ (f : Nat → Grid × Finset (Fin 81)),
      (∀ i, (f i).2.Nonempty → SVStep (f i) (f (i + 1))) →
      ∃ n, n ≤ svMeasure (f 0).1 (f 0).2 ∧ (f n).2 = ∅ :=
  ⟨fun _ _ h => svStep_measure_lt h,
   fun f hstep => svChain_bound (svMeasure (f 0).1 (f 0).2) f le_rfl hstep⟩

/-- Witness for C8: popping cell 0 (singleton candidate set `{5}`) from the
worklist of `gridC8w` is a genuine `SVStep`, and it strictly decreases the
measure; the concrete chain `c8Chain` performing that pop empties its
worklist within the measure bound. -/
theorem C8_closure_terminates_witness :
    svMeasure (svPopStep gridC8w {0} 0).1 (svPopStep gridC8w {0} 0).2 <
      svMeasure gridC8w ({0} : Finset (Fin 81)) ∧
    ∃ n, n ≤ svMeasure gridC8w ({0} : Finset (Fin 81)) ∧ (c8Chain n).2 = ∅ :=
  ⟨C8_closure_terminates.1 (gridC8w, {0}) (svPopStep gridC8w {0} 0)
      ⟨0, by decide, rfl⟩,
   C8_closure_terminates.2 c8Chain (fun i => by
      cases i with
      | zero => exact fun _ => ⟨0, by decide, rfl⟩
      | succ n =>
          intro h
          have h2 : (svPopStep gridC8w ({0} : Finset (Fin 81)) 0).2.Nonempty := h
          rw [c8PopWorklist] at h2
          exact absurd h2 Finset.not_nonempty_empty)⟩

/-- C9: lenient seeding.  `grid_parser` is a total function (no exception can
propagate), and at any point of the row-major seeding run (the positions
processed so far are `l1`, the current one is `p`): a clue that is out of
range, or aimed at a locked cell, or no longer in the cell's domain (as after
a duplicate clue in the same unit, whose first occurrence removed the value
by propagation) is silently ignored — the step changes nothing at all, at its
own position in particular; and every cell locked by an earlier clue stays
locked with its first value to the end of the run. -/
theorem C9_lenient_seeding (seed : Fin 81 → Int) (l1 : List (Fin 81))
    (p : Fin 81) (l2 : List (Fin 81))
    (hsplit : List.finRange 81 = l1 ++ p :: l2) :
    ((¬(0 < seed p ∧ seed p ≤ 9) ∨
        ((parseGo seed initGrid l1) p).locked = true ∨
        (seed p).toNat ∉ ((parseGo seed initGrid l1) p).domain) →
      parseStep (parseGo seed initGrid l1) p (seed p) =
        parseGo seed initGrid l1) ∧
    (∀ c, ((parseGo seed initGrid l1) c).locked = true →
      (gridParse seed c).locked = true ∧
        (gridParse seed c).value = ((parseGo seed initGrid l1) c).value) := by
  constructor
  · exact parseStep_ignored
  · intro c hl
    have hrun : gridParse seed = parseGo seed (parseGo seed initGrid l1) (p :: l2) := by
      unfold gridParse
      rw [hsplit, parseGo_append]
    rw [hrun]
    exact (parseGo_pres seed (p :: l2) (parseGo seed initGrid l1) c).1 hl

/-- Witness for C9 on the duplicate-clue seed (two 5s in row 0): the second
clue's step is the identity, and the first clue's cell keeps its value. -/
theorem C9_lenient_seeding_witness :
    (parseStep (parseGo seedDup initGrid [(0 : Fin 81)]) 1 (seedDup 1) =
      parseGo seedDup initGrid [(0 : Fin 81)]) ∧
    ((gridParse seedDup 0).locked = true ∧
      (gridParse seedDup 0).value =
        ((parseGo seedDup initGrid [(0 : Fin 81)]) 0).value) :=
  ⟨(C9_lenient_seeding seedDup [0] 1 ((List.finRange 81).drop 2)
      (by decide)).1 (Or.inr (Or.inr (by decide))),
   (C9_lenient_seeding seedDup [0] 1 ((List.finRange 81).drop 2)
      (by decide)).2 0 (by decide)⟩

/-- C10: for any level other than 1 and 2, `solve` runs a single round in
which no technique is called, changes nothing and stops. -/
theorem C10_solve_other_levels (lvl : Int) (g : Grid)
    (h1 : lvl ≠ 1) (h2 : lvl ≠ 2) : solve lvl g = g :=
  solveGo_other 81 lvl g h1 h2

/-- Witness for C10 at level 3 on a fresh grid. -/
theorem C10_solve_other_levels_witness : solve 3 initGrid = initGrid :=
  C10_solve_other_levels 3 initGrid (by decide) (by decide)

end SudokuSpec
